import Mathlib

/-!
# A verification development for the lovpy timed-property-graph engine

This file gives an executable shallow embedding, in Lean 4, of the core
theorem-proving engine of lovpy (`logipy/graphs/timed_property_graph.py`
together with the operator, timestamp, time-source and colorizable-graph
modules it builds on), and settles a list of claims about that engine.

The data model and every operation are translated from the Python source.
The modules `timestamps.py`, `time_source.py`, `colorizable_multidigraph.py`
and `graphs/logical_operators.py` are not part of the provided sources;
the definitions standing in for them are modelled from the specification
and are marked as such in their doc comments.

Python exceptions (`KeyError`, `IndexError`, `ValueError`, explicit
`raise`) are modelled by an `Except String` result; a computation that the
Python code would crash on evaluates to `Except.error`.
-/

deriving instance DecidableEq for Except

namespace Lovpy

/-- Result type standing in for Python's exception control flow. -/
abbrev Res (α : Type) : Type := Except String α

/-! ## Timestamps

Modelled from the spec: the module `logipy/logic/timestamps.py` is not
among the provided sources.  Per spec §3/§4.B a timestamp is either
`Absolute(t)` or `Relative(δ)` (the `Interval` variant is used only for
quantified temporal patterns, which none of the embedded operations
exercise, so it is omitted here); a relative timestamp bound to a time
source resolves to `now + δ`, and comparisons that order relative against
absolute timestamps first resolve the relative one against its source.
The engine uses a single (global) time source, modelled as the integer
`now` carried by each graph. -/
inductive Timestamp : Type where
  | abs (t : Int) : Timestamp
  | rel (d : Int) : Timestamp
deriving DecidableEq, Repr

namespace Timestamp

/-- Modelled from the spec: a relative timestamp resolves to `now + δ`. -/
def resolve (now : Int) : Timestamp → Int
  | abs t => t
  | rel d => now + d

/-- `is_absolute` from the timestamp algebra. -/
def isAbsolute : Timestamp → Bool
  | abs _ => true
  | rel _ => false

/-- `get_absolute_value`: the concrete tick of a timestamp; a relative
timestamp is resolved against the (single, global) time source. -/
def absoluteValue (now : Int) : Timestamp → Int :=
  resolve now

/-- `get_relative_value` of a relative timestamp (0 for absolute ones,
which the source never asks for). -/
def relativeValue : Timestamp → Int
  | abs _ => 0
  | rel d => d

/-- Modelled from the spec (§4.B): `matches` semantics.  Absolute/absolute
compare equal integers, relative/relative under the same source compare
offsets, mixed pairs resolve the relative one first. -/
def tmatches (now : Int) : Timestamp → Timestamp → Bool
  | abs t₁, abs t₂ => t₁ == t₂
  | rel d₁, rel d₂ => d₁ == d₂
  | rel d, abs t => (now + d) == t
  | abs t, rel d => t == (now + d)

/-- Modelled from the spec: the total order used by `<`, `max`, `min` and
`sort`; relative timestamps are resolved against the time source first. -/
def tlt (now : Int) (a b : Timestamp) : Bool :=
  resolve now a < resolve now b

end Timestamp

/-- Python's `max` over a list of timestamps: keeps the first maximal
element; raises `ValueError` on an empty list. -/
def maxTs (now : Int) : List Timestamp → Res Timestamp
  | [] => .error "max() arg is an empty sequence"
  | t :: ts =>
    .ok (ts.foldl (fun best x => if Timestamp.tlt now best x then x else best) t)

/-- Python's `min` over a list of timestamps: keeps the first minimal
element; raises `ValueError` on an empty list. -/
def minTs (now : Int) : List Timestamp → Res Timestamp
  | [] => .error "min() arg is an empty sequence"
  | t :: ts =>
    .ok (ts.foldl (fun best x => if Timestamp.tlt now x best then x else best) t)

/-- Modelled from the spec (§3 sequence-match rule): the module defining
`timestamp_sequences_matches` is not among the provided sources.  Two
equal-length sequences match iff there is a monotone assignment of
concrete values (the admissible set of an absolute or source-bound
relative timestamp is the singleton containing its resolved value) such
that the order of the A-values equals the order of the B-values and the
entries match pairwise.  With singleton admissible sets this is: pairwise
`matches`, and agreement of the strict orders of the resolved values. -/
def timestampSequencesMatches (now : Int) (a b : List Timestamp) : Bool :=
  a.length == b.length &&
  (List.zip a b).all (fun p => Timestamp.tmatches now p.1 p.2) &&
  (List.zip a b).all (fun p =>
    (List.zip a b).all (fun q =>
      (Timestamp.tlt now p.1 q.1) == (Timestamp.tlt now p.2 q.2)))

/-! ## Nodes

`PredicateNode` and `MonitoredVariable` are translated from
`graphs/timed_property_graph.py`.  The operator nodes are translated from
`logic/logical_operators.py` (present in the sources): the textual
representation of an operator joins the sorted renderings of its operands
(sorted unless the operand order matters, as it does for `IMPLIES`).
Node identity by textual rendering, and the `disable_hashing_by_structure`
escape that forces an operator node to stay unique, are modelled from the
spec (§3 Nodes), the module `graphs/logical_operators.py` defining them
not being among the provided sources; a forced-unique node carries a
nonzero `uid`. -/
inductive NodeKind : Type where
  | pred | mvar | andK | notK | implK
deriving DecidableEq, Repr

structure Node where
  kind : NodeKind
  render : String
  uid : Nat := 0
deriving DecidableEq, Repr

namespace Node

def isOperator (n : Node) : Bool :=
  n.kind == .andK || n.kind == .notK || n.kind == .implK

/-- `str.replace(" ", "_")`, character by character (kernel-reducible
form of the string replacement done by `PredicateNode.__str__`). -/
def underscoreSpaces (s : String) : String :=
  String.mk (s.data.map (fun c => if c = ' ' then '_' else c))

/-- `PredicateNode.__str__`: `name(arg1,...,argk)` with spaces replaced by
underscores.  Arguments are monitored-variable renderings. -/
def mkPredicate (name : String) (args : List String) : Node :=
  { kind := .pred
    render := underscoreSpaces (name ++ "(" ++ String.intercalate "," args ++ ")") }

def mkVariable (name : String) : Node :=
  { kind := .mvar, render := name }

/-- Lexicographic comparison of character lists by code point (Python's
string `<`). -/
def charListLt : List Char → List Char → Bool
  | [], [] => false
  | [], _ :: _ => true
  | _ :: _, [] => false
  | a :: as, b :: bs =>
    if a.toNat < b.toNat then true
    else if b.toNat < a.toNat then false
    else charListLt as bs

def strLt (a b : String) : Bool := charListLt a.data b.data

/-- A stable ascending insertion sort on strings (Python's stable
`list.sort`). -/
def insertStr (x : String) : List String → List String
  | [] => [x]
  | y :: ys => if strLt x y then x :: y :: ys else y :: insertStr x ys

def sortStrings (l : List String) : List String :=
  l.foldl (fun acc x => insertStr x acc) []

/-- `LogicalOperator.__init__`: operand renderings, sorted when the
operand order does not matter, joined by the operator symbol (the symbol
is prepended for a single operand). -/
def operatorRender (symbol : String) (sortArgs : Bool) (args : List String) : String :=
  let argsList := if sortArgs then sortStrings args else args
  match argsList with
  | [a] => symbol ++ a
  | l => String.intercalate symbol l

def mkAnd (a b : Node) : Node :=
  { kind := .andK, render := operatorRender "AND" true [a.render, b.render] }

def mkNot (a : Node) : Node :=
  { kind := .notK, render := operatorRender "NOT" true [a.render] }

def mkImpl (a b : Node) : Node :=
  { kind := .implK, render := operatorRender "-->" false [a.render, b.render] }

/-- Modelled from the spec: operator nodes are logically equal iff their
kind and operand set match; a forced-unique (`uid ≠ 0`) node still
logically matches by structure. -/
def logicallyMatches (a b : Node) : Bool :=
  a.kind == b.kind && a.render == b.render

end Node

/-- `ASSUMPTION` / `CONCLUSION` implication tags carried by the two
out-edges of an `IMPLIES` node. -/
inductive ImplTag : Type where
  | assumption | conclusion
deriving DecidableEq, Repr

/-- The attribute dictionary of an edge.  `_add_edge` filters out `None`
values, so either attribute may be absent; a lookup of an absent
`timestamp` models Python's `KeyError`. -/
structure EdgeData where
  ts : Option Timestamp := none
  impl : Option ImplTag := none
deriving DecidableEq, Repr

/-- Python `dict.update`: attributes present in `upd` overwrite those of
`base`; absent ones are kept. -/
def EdgeData.update (base upd : EdgeData) : EdgeData :=
  { ts := upd.ts.orElse (fun _ => base.ts)
    impl := upd.impl.orElse (fun _ => base.impl) }

structure Edge where
  src : Node
  dst : Node
  key : Nat
  data : EdgeData
deriving DecidableEq, Repr

/-- A `(u, v, key)` edge reference. -/
abbrev EdgeRef : Type := Node × Node × Nat

def Edge.ref (e : Edge) : EdgeRef := (e.src, e.dst, e.key)

/-! ## The multigraph substrate

A `networkx.MultiDiGraph` (wrapped by `ColorizableMultiDiGraph`).  The
node list mirrors networkx's node insertion order; the edge list mirrors
the global edge insertion order.  The adjacency iteration order of
networkx (for each node in insertion order, for each successor in order of
first edge, for each key in insertion order) is reconstructed from those
two lists by `outEdges` and `edgeList`. -/
structure MG where
  nodes : List Node := []
  edges : List Edge := []
deriving DecidableEq, Repr

namespace MG

def hasNode (g : MG) (n : Node) : Bool := g.nodes.contains n

/-- All current edges with source `u`, in insertion order. -/
def edgesFromRaw (g : MG) (u : Node) : List Edge :=
  g.edges.filter (fun e => e.src == u)

/-- Deduplication keeping the first occurrence of each element (the
iteration order of a Python dict keyed by insertion). -/
def firstOccurAux : List Node → List Node → List Node
  | _, [] => []
  | seen, x :: xs =>
    if seen.contains x then firstOccurAux seen xs
    else x :: firstOccurAux (x :: seen) xs

/-- First-occurrence deduplication. -/
def firstOccur (l : List Node) : List Node := firstOccurAux [] l

/-- The successors of `u` in networkx adjacency order (order of first edge
to each successor). -/
def succOrder (g : MG) (u : Node) : List Node :=
  firstOccur ((g.edgesFromRaw u).map Edge.dst)

/-- `G.edges(u, keys=True, data=True)`: the out-edges of `u` in networkx
adjacency iteration order. -/
def outEdges (g : MG) (u : Node) : List Edge :=
  (g.succOrder u).flatMap (fun v => (g.edgesFromRaw u).filter (fun e => e.dst == v))

/-- `G.edges(keys=True, data=True)`: all edges, grouped by source node in
node insertion order, each group in adjacency order. -/
def edgeList (g : MG) : List Edge :=
  g.nodes.flatMap g.outEdges

/-- `G.in_edges(v, keys=True)`.  (Only the set matters to the embedded
operations; the order is the grouped edge-iteration order.) -/
def inEdges (g : MG) (v : Node) : List Edge :=
  g.edgeList.filter (fun e => e.dst == v)

def outDegree (g : MG) (u : Node) : Nat :=
  (g.edgesFromRaw u).length

def inDegree (g : MG) (v : Node) : Nat :=
  (g.edges.filter (fun e => e.dst == v)).length

def degree (g : MG) (n : Node) : Nat :=
  g.outDegree n + g.inDegree n

def numberOfNodes (g : MG) : Nat := g.nodes.length

def hasEdgePair (g : MG) (u v : Node) : Bool :=
  g.edges.any (fun e => e.src == u && e.dst == v)

/-- The keys of the parallel edges `u → v`, in insertion order (networkx
keydict order). -/
def keysBetween (g : MG) (u v : Node) : List Nat :=
  ((g.edges.filter (fun e => e.src == u && e.dst == v)).map Edge.key)

/-- `G.get_edge_data(u, v, key)`. -/
def edgeData (g : MG) (u v : Node) (k : Nat) : Option EdgeData :=
  (g.edges.find? (fun e => e.src == u && e.dst == v && e.key == k)).map Edge.data

/-- Timestamp lookup `G.edges[u, v, k][TIMESTAMP_PROPERTY_NAME]`; a
missing edge or a missing attribute is a Python `KeyError`. -/
def tsOf (g : MG) (u v : Node) (k : Nat) : Res Timestamp :=
  match g.edgeData u v k with
  | none => .error "KeyError: edge"
  | some d =>
    match d.ts with
    | none => .error "KeyError: timestamp"
    | some t => .ok t

def addNode (g : MG) (n : Node) : MG :=
  if g.hasNode n then g else { g with nodes := g.nodes ++ [n] }

/-- `new_edge_key`: the automatic key for a fresh parallel edge
(`len(keydict)`, incremented while it collides). -/
def freshKey (g : MG) (u v : Node) : Nat :=
  let used := g.keysBetween u v
  let rec go (k : Nat) (fuel : Nat) : Nat :=
    match fuel with
    | 0 => k
    | fuel + 1 => if used.contains k then go (k + 1) fuel else k
  go used.length (used.length + 1)

/-- `G.add_edge(u, v, key, **data)` with an explicit key: a new edge, or a
`dict.update` of the data of an existing `(u, v, key)` edge. -/
def addEdgeKeyed (g : MG) (u v : Node) (k : Nat) (d : EdgeData) : MG :=
  let g := (g.addNode u).addNode v
  if g.edges.any (fun e => e.src == u && e.dst == v && e.key == k) then
    { g with
      edges := g.edges.map (fun e =>
        if e.src == u && e.dst == v && e.key == k then
          { e with data := e.data.update d }
        else e) }
  else
    { g with edges := g.edges ++ [{ src := u, dst := v, key := k, data := d }] }

/-- `G.add_edge(u, v, **data)` without a key: always creates a fresh
parallel edge. -/
def addEdgeAuto (g : MG) (u v : Node) (d : EdgeData) : MG :=
  let g := (g.addNode u).addNode v
  { g with edges := g.edges ++ [{ src := u, dst := v, key := g.freshKey u v, data := d }] }

/-- `G.add_edges_from(H.edges(keys=True, data=True))`: keyed insertion in
the iteration order of `H`. -/
def addEdgesFrom (g : MG) (es : List Edge) : MG :=
  es.foldl (fun acc e => acc.addEdgeKeyed e.src e.dst e.key e.data) g

/-- `G.remove_edge(u, v, key)`. -/
def removeEdge (g : MG) (u v : Node) (k : Nat) : MG :=
  { g with edges := g.edges.filter (fun e => !(e.src == u && e.dst == v && e.key == k)) }

/-- `G.remove_node(n)`: drops the node and all incident edges. -/
def removeNode (g : MG) (n : Node) : MG :=
  { nodes := g.nodes.filter (fun m => m != n)
    edges := g.edges.filter (fun e => !(e.src == n || e.dst == n)) }

def removeNodes (g : MG) (ns : List Node) : MG :=
  ns.foldl MG.removeNode g

/-- `G.remove_edges_from`. -/
def removeEdgesFrom (g : MG) (refs : List EdgeRef) : MG :=
  { g with edges := g.edges.filter (fun e => !(refs.contains e.ref)) }

end MG

/-! ## Simple-path enumeration

`networkx.algorithms.simple_paths.all_simple_edge_paths` as of the
networkx releases contemporary with the source (2.5/2.6): a depth-first
enumeration, in adjacency order, of all node-simple edge paths from
`source` to any node of `targets`; a path ending at a target is yielded
before its extensions; when `source` is itself among the targets the
generator is empty; a missing source raises `NodeNotFound`. -/
def simplePathsAux (g : MG) (targets : List Node) :
    Nat → Node → List Node → List (List Edge)
  | 0, _, _ => []
  | fuel + 1, u, visited =>
    (g.outEdges u).flatMap (fun e =>
      if visited.contains e.dst then []
      else
        (if targets.contains e.dst then [[e]] else []) ++
        (simplePathsAux g targets fuel e.dst (visited ++ [e.dst])).map
          (fun p => e :: p))

def allSimpleEdgePaths (g : MG) (source : Node) (targets : List Node) :
    Res (List (List Edge)) :=
  if !(g.hasNode source) then .error "NodeNotFound"
  else if targets.contains source then .ok []
  else .ok (simplePathsAux g targets (g.nodes.length + 1) source [source])

/-- The node set reachable from `n` (`networkx.dfs_postorder_nodes`; only
the set is used by the source, as the argument of `subgraph`). -/
def reachableAux (g : MG) : Nat → List Node → List Node → List Node
  | 0, _, acc => acc
  | _, [], acc => acc
  | fuel + 1, u :: rest, acc =>
    if acc.contains u then reachableAux g fuel rest acc
    else reachableAux g fuel (rest ++ (g.outEdges u).map Edge.dst) (acc ++ [u])

def reachableFrom (g : MG) (n : Node) : List Node :=
  reachableAux g ((g.nodes.length + 1) * (g.edges.length + 2)) [n] []

/-- `G.subgraph(nodes)`: the induced subgraph, nodes and edges in the
iteration order of `G`. -/
def MG.subgraphOn (g : MG) (ns : List Node) : MG :=
  { nodes := g.nodes.filter (fun n => ns.contains n)
    edges := g.edges.filter (fun e => ns.contains e.src && ns.contains e.dst) }

/-- `G.edge_subgraph(edges).copy()`: the subgraph with exactly the given
edges and their incident nodes. -/
def MG.edgeSubgraph (g : MG) (refs : List EdgeRef) : MG :=
  let es := g.edges.filter (fun e => refs.contains e.ref)
  { nodes := g.nodes.filter (fun n => es.any (fun e => e.src == n || e.dst == n))
    edges := es }

/-! ## Colorization

Modelled from the spec (§4.C): `colorizable_multidigraph.py` is not among
the provided sources.  `colorize_path` marks every edge of a path with
both colors, so the colorization state is the set of colored edge
references.  `build_colorization_scheme` propagates the coloring to
nodes: a node is in-colorized iff all its in-edges are colorized
(vacuously for a source node) and out-colorized iff all its out-edges are
colorized (vacuously for a leaf).  `disconnect_fully_colorized_sub_dag`
deletes every colorized edge whose endpoints are respectively in- and
out-colorized — i.e. a colorized edge survives exactly when some
uncolorized edge still leads into its source or out of its target, which
is what makes the scheme remove exactly the logically unreferenced
subgraph — and then removes the nodes left without any edge.
`clear_colorization` resets the state (implicit here: the colored set is
local to `_logically_remove_path_set`). -/
def nodeInColorized (g : MG) (colored : List EdgeRef) (n : Node) : Bool :=
  (g.edges.filter (fun e => e.dst == n)).all (fun e => colored.contains e.ref)

def nodeOutColorized (g : MG) (colored : List EdgeRef) (n : Node) : Bool :=
  (g.edges.filter (fun e => e.src == n)).all (fun e => colored.contains e.ref)

def disconnectFullyColorized (g : MG) (colored : List EdgeRef) : MG :=
  let keep := g.edges.filter (fun e =>
    !(colored.contains e.ref && nodeInColorized g colored e.src &&
      nodeOutColorized g colored e.dst))
  let g' : MG := { g with edges := keep }
  { g' with nodes := g'.nodes.filter (fun n => g'.degree n != 0) }

/-! ## Paths with timestamps -/

/-- An edge of an enumerated path after `_fill_paths_with_timestamps`:
a `(u, v, key, timestamp)` four-tuple. -/
structure PEdge where
  src : Node
  dst : Node
  key : Nat
  ts : Timestamp
deriving DecidableEq, Repr

def PEdge.ref (e : PEdge) : EdgeRef := (e.src, e.dst, e.key)

/-- `_fill_paths_with_timestamps` for a single path: a missing timestamp
attribute is a `KeyError`. -/
def fillPath (g : MG) (p : List Edge) : Res (List PEdge) :=
  p.mapM (fun e => do
    let t ← g.tsOf e.src e.dst e.key
    return { src := e.src, dst := e.dst, key := e.key, ts := t })

def fillPaths (g : MG) (ps : List (List Edge)) : Res (List (List PEdge)) :=
  ps.mapM (fillPath g)

/-- Module-level `find_path_timestamp`: the minimum timestamp of the
path's edges (`ValueError` on an empty path). -/
def pathTimestamp (now : Int) (p : List PEdge) : Res Timestamp :=
  minTs now (p.map PEdge.ts)

/-- `count_nots_in_path`: NOT nodes occurring as an edge source, plus the
final edge's target if it is a NOT. -/
def countNots (p : List PEdge) : Nat :=
  (p.filter (fun e => e.src.kind == .notK)).length +
  (match p.getLast? with
   | some e => if e.dst.kind == .notK then 1 else 0
   | none => 0)

/-- `_edges_match`: same endpoints and key, and matching timestamps. -/
def edgesMatchP (now : Int) (e1 e2 : PEdge) : Bool :=
  e1.src == e2.src && e1.dst == e2.dst && e1.key == e2.key &&
  Timestamp.tmatches now e1.ts e2.ts

/-- Python list indexing with negative-index wrap-around; `none` models
`IndexError`. -/
def pyGet (l : List α) (i : Int) : Option α :=
  if i ≥ 0 then l.get? i.toNat
  else
    let j : Int := (l.length : Int) + i
    if j ≥ 0 then l.get? j.toNat else none

def isSkipableNode (n : Node) : Bool := n.isOperator

/-- The inner advance of `_paths_logically_match`: fetch `path2[index2]`,
decrement, and keep fetching while the current node is skippable and the
index is still nonnegative.  Returns the reached node and the final
index; `none` models an `IndexError`. -/
def walkAdvance2 (path2 : List PEdge) : Nat → Int → Option (Node × Int)
  | 0, _ => none
  | fuel + 1, i2 => do
    let e ← pyGet path2 i2
    let cur := e.src
    let i2' := i2 - 1
    if i2' ≥ 0 && isSkipableNode cur then
      walkAdvance2 path2 fuel i2'
    else
      return (cur, i2')

/-- The main walk of `_paths_logically_match`, from the tail of both paths
toward their heads. -/
def walkMatch (path1 path2 : List PEdge) : Nat → Int → Int → Res Bool
  | 0, _, _ => .ok true
  | fuel + 1, i1, i2 =>
    if i1 < 0 then .ok true
    else
      match pyGet path1 i1 with
      | none => .error "IndexError"
      | some e1 =>
        let cur1 := e1.src
        if isSkipableNode cur1 then
          walkMatch path1 path2 fuel (i1 - 1) i2
        else
          match walkAdvance2 path2 (path2.length + 2) i2 with
          | none => .error "IndexError"
          | some (cur2, i2') =>
            if cur1 == cur2 then walkMatch path1 path2 fuel (i1 - 1) i2'
            else .ok false

/-- `_paths_logically_match`. -/
def pathsLogicallyMatch (path1 path2 : List PEdge) : Res Bool := do
  if (countNots path1 % 2) != (countNots path2 % 2) then
    return false
  match path1.getLast?, path2.getLast? with
  | some l1, some l2 =>
    if l1.dst != l2.dst then
      return false
    else
      walkMatch path1 path2 (path1.length + 1)
        ((path1.length : Int) - 1) ((path2.length : Int) - 1)
  | _, _ => .error "IndexError"

/-! ## Timed property graphs -/

/-- A registered constant property.  The only concrete strategy in the
source is `NoPositiveAndNegativePredicatesSimultaneously`; a registered
instance holds a reference to the graph it rewrites, which for registered
properties is the owning graph itself. -/
inductive ConstProp : Type where
  | noPosNeg
deriving DecidableEq, Repr

/-- `TimedPropertyGraph`: a colorizable multigraph, a root node, a time
source (the single global source, modelled by its current value `now`),
the registered constant properties and an optional textual label. -/
structure TPG where
  graph : MG := {}
  root : Option Node := none
  now : Int := 0
  cps : List ConstProp := []
  textual : Option String := none
deriving DecidableEq, Repr

def reqTs (o : Option Timestamp) : Res Timestamp :=
  match o with
  | none => .error "KeyError: timestamp"
  | some t => .ok t

/-- `_merge_timestamped_data`: merge two attribute dicts, the entries of
the newer-stamped (or older-stamped, for `keep_newer=False`) dict winning. -/
def mergeTimestampedData (now : Int) (d1 d2 : EdgeData) (keepNewer : Bool) :
    Res EdgeData := do
  let t1 ← reqTs d1.ts
  let t2 ← reqTs d2.ts
  if keepNewer then
    if Timestamp.tlt now t2 t1 then return d2.update d1 else return d1.update d2
  else
    if Timestamp.tlt now t1 t2 then return d2.update d1 else return d1.update d2

namespace TPG

def getLeaves (g : TPG) : List Node :=
  g.graph.nodes.filter (fun n => g.graph.outDegree n == 0)

/-- `_add_node`. -/
def addNodeT (g : TPG) (n : Node) : TPG :=
  { g with
    graph := g.graph.addNode n
    root := match g.root with | none => some n | some r => some r }

/-- The graph part of `_add_edge`: with `update_if_exists` an existing
`(u, v)` edge (its first key) is updated by
`_merge_timestamped_data(..., keep_newer=True)`; otherwise a fresh
parallel edge is added. -/
def addEdgeGraphStep (g : TPG) (u v : Node) (d : EdgeData)
    (updateIfExists : Bool) : Res MG :=
  if updateIfExists && g.graph.hasEdgePair u v then
    match (g.graph.keysBetween u v).head? with
    | none => .error "IndexError"
    | some k =>
      match g.graph.edgeData u v k with
      | none => .error "KeyError: edge"
      | some old =>
        (mergeTimestampedData g.now old d true).map
          (fun newData => g.graph.addEdgeKeyed u v k newData)
  else
    .ok (g.graph.addEdgeAuto u v d)

/-- `_add_edge`: `None`-valued attributes are dropped (modelled by the
optional fields of `EdgeData`); the root moves to `u` when the graph had
no root or `v` was the root. -/
def addEdgeT (g : TPG) (u v : Node) (d : EdgeData)
    (updateIfExists : Bool := false) : Res TPG :=
  (addEdgeGraphStep g u v d updateIfExists).map (fun graph' =>
    { g with
      graph := graph'
      root :=
        match g.root with
        | none => some u
        | some r => if v == r then some u else some r })

/-- `get_most_recent_timestamp`: `max` over the edges' timestamp
attributes (`None` for an edge without one); comparing `None` against
anything is a `TypeError`, an empty edge list gives `None`. -/
def getMostRecent (g : TPG) : Res (Option Timestamp) :=
  let tss := g.graph.edgeList.map (fun e => e.data.ts)
  match tss with
  | [] => .ok none
  | [t] => .ok t
  | _ =>
    if tss.all Option.isSome then do
      let m ← maxTs g.now (tss.filterMap id)
      return some m
    else .error "TypeError: comparison with None"

/-- `set_timestamp`: stamp every edge. -/
def setTimestampAll (g : TPG) (t : Timestamp) : TPG :=
  { g with graph := { g.graph with
      edges := g.graph.edges.map (fun e =>
        { e with data := { e.data with ts := some t } }) } }

/-- `PredicateGraph(predicate, *args)`: the predicate node, then one
(untimestamped) edge to each monitored-variable argument. -/
def predicateGraph (name : String) (args : List String) : TPG :=
  let p := Node.mkPredicate name args
  let g0 : TPG := addNodeT {} p
  args.foldl (fun acc a =>
    match addEdgeT acc p (Node.mkVariable a) {} with
    | .ok g => g
    | .error _ => acc) g0

/-- `_propagate_edge_data_to_deeper_edges`: push attribute data down onto
the out-edges of `source`, each retaining the entries of the
older-stamped side. -/
def propagateEdgeData (g : TPG) (source : Node) (d : EdgeData) : Res TPG := do
  let deeper := g.graph.outEdges source
  deeper.foldlM (fun (acc : TPG) de => do
    match acc.graph.edgeData de.src de.dst de.key with
    | none => .error "KeyError: edge"
    | some deeperData => do
      let t ← reqTs d.ts
      let td ← reqTs deeperData.ts
      let retained :=
        if Timestamp.tlt acc.now t td then deeperData.update d
        else d.update deeperData
      return { acc with graph :=
        acc.graph.addEdgeKeyed de.src de.dst de.key (deeperData.update retained) })
    g

/-- The reconnection part of `_remove_orphan_and_operator`: with parents,
reconnect each parent to the single child keeping the older-stamped
metadata; a rootless AND instead promotes its child to root and propagates
the leftover metadata downward. -/
def spliceReconnect (g : TPG) (predecessorEdges : List Edge)
    (successorEdge : Edge) : Res TPG :=
  if predecessorEdges != [] then
    predecessorEdges.foldlM (fun (acc : TPG) pe => do
      let tp ← reqTs pe.data.ts
      let tsSucc ← reqTs successorEdge.data.ts
      let dataToRetain :=
        if Timestamp.tlt acc.now tp tsSucc then successorEdge.data.update pe.data
        else pe.data.update successorEdge.data
      acc.addEdgeT pe.src successorEdge.dst dataToRetain) g
  else
    TPG.propagateEdgeData { g with root := some successorEdge.dst }
      successorEdge.dst successorEdge.data

/-- `_remove_orphan_and_operator`: splice out one AND node with out-degree
< 2. -/
def removeOrphanAndOperator (g : TPG) (andNode : Node) : Res TPG :=
  match (g.graph.outEdges andNode).head? with
  | none => .error "IndexError: orphan AND without successor"
  | some successorEdge =>
    (spliceReconnect g (g.graph.inEdges andNode) successorEdge).map
      (fun g' => { g' with graph := g'.graph.removeNode andNode })

/-- The AND nodes with out-degree < 2 (the orphan ANDs). -/
def orphanAndList (g : TPG) : List Node :=
  g.graph.nodes.filter (fun n => n.kind == .andK && g.graph.outDegree n < 2)

/-- `_remove_orphan_and_operators`: collect every AND with out-degree < 2,
then splice them out one by one. -/
def removeOrphanAndOperators (g : TPG) : Res TPG :=
  (orphanAndList g).foldlM (fun acc n => acc.removeOrphanAndOperator n) g

/-- `_collapse_not_operators_pair`. -/
def collapseNotPair (g : TPG) (not1 not2 : Node) : Res TPG := do
  let not1PredecessorEdges := g.graph.inEdges not1
  match (g.graph.outEdges not2).head? with
  | none => .error "IndexError: NOT without successor"
  | some not2SuccessorEdge => do
    match g.graph.edgeData not1 not2 0 with
    | none => .error "KeyError: edge"
    | some betweenData => do
      let not2OutData := not2SuccessorEdge.data
      let tb ← reqTs betweenData.ts
      let to2 ← reqTs not2OutData.ts
      let dataToRetain :=
        if Timestamp.tlt g.now tb to2 then not2OutData.update betweenData
        else betweenData.update not2OutData
      let g' ←
        if not1PredecessorEdges != [] then
          not1PredecessorEdges.foldlM (fun (acc : TPG) pe => do
            let tp ← reqTs pe.data.ts
            let tr ← reqTs dataToRetain.ts
            let newData :=
              if Timestamp.tlt acc.now tp tr then dataToRetain.update pe.data
              else pe.data.update dataToRetain
            acc.addEdgeT pe.src not2SuccessorEdge.dst newData) g
        else do
          let g1 : TPG := { g with root := some not2SuccessorEdge.dst }
          g1.propagateEdgeData not2SuccessorEdge.dst dataToRetain
      return { g' with graph := g'.graph.removeNodes [not1, not2] }

/-- The first `NOT → NOT` edge in edge-iteration order, if any. -/
def findNotPair (g : TPG) : Option Edge :=
  g.graph.edgeList.find? (fun e =>
    e.src.kind == .notK && e.dst.kind == .notK)

/-- `_collapse_sequential_not_operators`: repeatedly collapse the first
`NOT → NOT` edge (in edge-iteration order) until none remains. -/
def collapseSequentialNots (g : TPG) : Nat → Res TPG
  | 0 => .error "fuel exhausted in NOT collapse"
  | fuel + 1 =>
    match findNotPair g with
    | none => .ok g
    | some e => do
      let g' ← g.collapseNotPair e.src e.dst
      collapseSequentialNots g' fuel

/-- `_fix_orphan_logical_operators`: remove orphan ANDs, then collapse
sequential NOTs. -/
def fixOrphan (g : TPG) : Res TPG := do
  let g1 ← g.removeOrphanAndOperators
  g1.collapseSequentialNots (g1.graph.nodes.length + 1)

/-- `_logically_remove_path_set`: colorize the given paths and disconnect
the fully colorized sub-DAG. -/
def logicallyRemovePathSet (g : TPG) (paths : List (List EdgeRef)) : TPG :=
  { g with graph := disconnectFullyColorized g.graph (paths.flatMap id) }

/-- `find_path_timestamp` (the `TimedPropertyGraph` method): the oldest
timestamp among the path's edges, looked up in the graph. -/
def findPathTimestampT (g : TPG) (p : List Edge) : Res Timestamp := do
  let tss ← p.mapM (fun e => g.graph.tsOf e.src e.dst e.key)
  minTs g.now tss

end TPG

/-- `count_nots_in_path` on raw `(u, v, key)` paths (as enumerated for
the constant property, which does not fill in timestamps). -/
def countNotsRaw (p : List Edge) : Nat :=
  (p.filter (fun e => e.src.kind == .notK)).length +
  (match p.getLast? with
   | some e => if e.dst.kind == .notK then 1 else 0
   | none => 0)

/-- `itertools.product`: the first factor varies slowest. -/
def listProd : List (List α) → List (List α)
  | [] => [[]]
  | g :: gs => g.flatMap (fun a => (listProd gs).map (fun rest => a :: rest))

/-- A stable insertion into an ascending list: the new element goes after
every element whose key is ≤ its own (Python's stable `sorted`). -/
def insertAscBy (key : α → Int) (x : α) : List α → List α
  | [] => [x]
  | y :: ys => if key x < key y then x :: y :: ys else y :: insertAscBy key x ys

def stableSortAscBy (key : α → Int) (l : List α) : List α :=
  l.foldl (fun acc x => insertAscBy key x acc) []

/-- A stable insertion into a descending list (Python's stable
`sort(reverse=True)`). -/
def insertDescBy (key : α → Int) (x : α) : List α → List α
  | [] => [x]
  | y :: ys => if key y < key x then x :: y :: ys else y :: insertDescBy key x ys

def stableSortDescBy (key : α → Int) (l : List α) : List α :=
  l.foldl (fun acc x => insertDescBy key x acc) []

namespace TPG

/-- `_inflate_property_graph_from_subgraph`: an empty subgraph inflates to
`None`; otherwise a fresh `TimedPropertyGraph` (hence with an empty
constant-property list) around the subgraph, rooted at the last
in-degree-0 node, sharing the parent's time source and textual
representation; without any in-degree-0 node the `RootlessSubgraph`
error is raised. -/
def inflateFromSubgraph (parent : TPG) (sub : MG) : Res (Option TPG) :=
  if sub.numberOfNodes == 0 then .ok none
  else
    match (sub.nodes.filter (fun n => sub.inDegree n == 0)).getLast? with
    | none => .error "Provided subgraph doesn't contain any root node."
    | some r =>
      .ok (some { graph := sub, root := some r, now := parent.now,
                  cps := [], textual := parent.textual })

/-- `get_top_level_implication_subgraphs`: for an `IMPLIES` root, inflate
the subgraphs reachable below the `ASSUMPTION`- and `CONCLUSION`-tagged
out-edges (for any other root the Python code passes `None` to the
inflater, which crashes on `len(None)`). -/
def getTopLevelImplicationSubgraphs (g : TPG) :
    Res (Option TPG × Option TPG) := do
  let rootIsImpl : Bool :=
    match g.root with
    | some r => r.kind == NodeKind.implK
    | none => false
  if rootIsImpl then do
    match g.root with
    | none => .error "unreachable"
    | some r => do
      let rootEdges := g.graph.outEdges r
      let pick (tag : ImplTag) : Option MG :=
        rootEdges.foldl (fun acc e =>
          if e.data.impl == some tag then
            some (g.graph.subgraphOn (reachableFrom g.graph e.dst))
          else acc) none
      match pick .assumption, pick .conclusion with
      | some a, some c => do
        let ia ← g.inflateFromSubgraph a
        let ic ← g.inflateFromSubgraph c
        return (ia, ic)
      | _, _ => .error "TypeError: len() of None"
  else .error "TypeError: len() of None"

/-- The inner loop of `_find_equivalent_path_structure`: for each path of
the other graph collect the logically matching paths of the current
graph; a path without any match makes the whole search fail. -/
def matchGroups (currentPaths : List (List PEdge)) :
    List (List PEdge) →
    Res (Option (List (List PEdge) × List (List (List PEdge))))
  | [] => .ok (some ([], []))
  | op :: ops => do
    let ms ← currentPaths.filterM (fun cp => pathsLogicallyMatch cp op)
    if ms == [] then
      .ok none
    else do
      let rest ← matchGroups currentPaths ops
      match rest with
      | none => .ok none
      | some (mps, groups) => .ok (some (op :: mps, ms :: groups))

/-- `_find_equivalent_path_structure`. -/
def findEquivalentPathStructure (g other : TPG) :
    Res (List (List PEdge) × List (List (List PEdge)) × Bool) := do
  let otherLeaves := other.getLeaves
  if !(otherLeaves.all (fun l => g.graph.hasNode l)) then
    return ([], [], false)
  match other.root, g.root with
  | some ro, some rs => do
    let otherRaw ← allSimpleEdgePaths other.graph ro otherLeaves
    let otherPaths ← fillPaths other.graph otherRaw
    let curRaw ← allSimpleEdgePaths g.graph rs otherLeaves
    let currentPaths ← fillPaths g.graph curRaw
    let res ← matchGroups currentPaths otherPaths
    match res with
    | none => return ([], [], false)
    | some (mps, groups) => return (mps, groups, true)
  | _, _ => .error "NodeNotFound"

/-- The result quadruple of `find_equivalent_subgraphs`. -/
structure FindRes where
  cases : List (List (List PEdge))
  matchedPaths : List (List PEdge)
  originalTs : List Timestamp
  casesTs : List (List Timestamp)
deriving DecidableEq, Repr

/-- A row of the `sorted(zip(original_timestamps, matched_paths,
*cases_timestamps, *cases))` table: the per-other-path components. -/
structure FRow where
  ts : Timestamp
  mp : List PEdge
  cts : List Timestamp
  cpl : List (List PEdge)
deriving DecidableEq, Repr

/-- `find_equivalent_subgraphs`. -/
def findEquivalentSubgraphs (g other : TPG) : Res FindRes := do
  let (matchedPaths, matchingGroups, found) ← g.findEquivalentPathStructure other
  if !found then
    return { cases := [], matchedPaths := [], originalTs := [], casesTs := [] }
  let originalTs ← matchedPaths.mapM (pathTimestamp g.now)
  let groupsTs ← matchingGroups.mapM (fun grp => grp.mapM (pathTimestamp g.now))
  let cases := listProd matchingGroups
  let casesTs := listProd groupsTs
  let rows :=
    (List.zip (List.zip originalTs matchedPaths)
        (List.zip casesTs.transpose cases.transpose)).map
      (fun z => { ts := z.1.1, mp := z.1.2, cts := z.2.1, cpl := z.2.2 : FRow })
  let sortedRows := stableSortAscBy (fun r => r.ts.resolve g.now) rows
  if sortedRows == [] then
    .error "IndexError"
  else do
    let originalTs' := sortedRows.map FRow.ts
    let matchedPaths' := sortedRows.map FRow.mp
    let casesTs' := (sortedRows.map FRow.cts).transpose
    let cases' := (sortedRows.map FRow.cpl).transpose
    let kept := (List.zip cases' casesTs').filter
      (fun p => timestampSequencesMatches g.now originalTs' p.2)
    return { cases := kept.map Prod.fst
             matchedPaths := matchedPaths'
             originalTs := originalTs'
             casesTs := kept.map Prod.snd }

/-- `contains_property_graph`. -/
def containsPropertyGraph (g other : TPG) : Res Bool := do
  let r ← g.findEquivalentSubgraphs other
  return !(r.cases == [])

/-- `update_path_timestamp`. -/
def updatePathTimestamp (g : TPG) (p : List PEdge) (t : Timestamp) : Res TPG :=
  p.foldlM (fun (acc : TPG) e => do
    match acc.graph.edgeData e.src e.dst e.key with
    | none => .error "KeyError: edge"
    | some d =>
      return { acc with graph :=
        acc.graph.addEdgeKeyed e.src e.dst e.key { d with ts := some t } }) g

/-- `update_subgraph_timestamp`: more than one match only emits a
warning-level diagnostic (invisible to this pure model); no match raises;
the first matching case has every path restamped. -/
def updateSubgraphTimestamp (g sub : TPG) (t : Timestamp) : Res TPG := do
  let r ← g.findEquivalentSubgraphs sub
  match r.cases with
  | [] => .error "Failed to update timestamps of given subgraph: subgraph not found."
  | c :: _ => c.foldlM (fun acc p => acc.updatePathTimestamp p t) g

/-- The removal choice of
`NoPositiveAndNegativePredicatesSimultaneously.apply`: scanning the
descending-sorted paths, everything from the first path whose NOT-parity
differs from the most recent path's parity onward is selected. -/
def cpPathsToRemove (sorted : List (List Edge × Timestamp)) : List (List Edge × Timestamp) :=
  match sorted with
  | [] => []
  | mr :: _ =>
    let mrNeg := countNotsRaw mr.1 % 2 == 1
    let i := sorted.findIdx (fun p => (countNotsRaw p.1 % 2 == 1) != mrNeg)
    if i < sorted.length then sorted.drop i else []

/-- `_all_simple_edge_paths_passing_from_node`: prefixes to the node and
suffixes from it, combined suffix-major. -/
def pathsPassingFromNode (g : MG) (source : Node) (targets : List Node)
    (intermediate : Node) : Res (List (List Edge)) := do
  let prefixes ← allSimpleEdgePaths g source [intermediate]
  let suffixes ← allSimpleEdgePaths g intermediate targets
  return suffixes.flatMap (fun s => prefixes.map (fun p => p ++ s))

/-- `NoPositiveAndNegativePredicatesSimultaneously.apply`: for each
predicate node, sort the root-to-leaf paths through it by path timestamp
descending and remove, by colorization followed by normalization,
everything from the first path whose polarity differs from the most
recent one onward. -/
def cpApply (g : TPG) : Res TPG := do
  let predicateNodes := g.graph.nodes.filter (fun n => n.kind == .pred)
  predicateNodes.foldlM (fun (acc : TPG) pn => do
    match acc.root with
    | none => .error "NodeNotFound"
    | some r => do
      let paths ← pathsPassingFromNode acc.graph r acc.getLeaves pn
      if paths == [] then
        return acc
      else do
        let tps ← paths.mapM (fun p => do
          let t ← acc.findPathTimestampT p
          return (p, t))
        let sorted := stableSortDescBy (fun p => p.2.resolve acc.now) tps
        let toRemove := cpPathsToRemove sorted
        let acc1 := acc.logicallyRemovePathSet
          (toRemove.map (fun p => p.1.map Edge.ref))
        acc1.fixOrphan) g

/-- `_apply_all_constant_properties`: registration order. -/
def applyAllCPs (g : TPG) : Res TPG :=
  g.cps.foldlM (fun acc cp => match cp with | .noPosNeg => cpApply acc) g

/-- `add_constant_property`. -/
def addConstantProperty (g : TPG) (cp : ConstProp) : TPG :=
  { g with cps := g.cps ++ [cp] }

/-- `logical_and`: merge the other graph's edges in, then (unless this
graph was empty) hang both roots under a fresh AND node whose edges carry
the given timestamp or, absent one, the most recent timestamp of each
operand; finally re-apply the registered constant properties. -/
def logicalAnd (g other : TPG) (tsArg : Option Timestamp := none) : Res TPG := do
  if other.graph.numberOfNodes == 0 then
    return g
  let wasEmpty := g.graph.numberOfNodes == 0
  let ts1 ← match tsArg with
    | some t => Except.ok (some t)
    | none => g.getMostRecent
  let ts2 ← match tsArg with
    | some t => Except.ok (some t)
    | none => other.getMostRecent
  let g1 : TPG := { g with graph := g.graph.addEdgesFrom other.graph.edgeList }
  let g2 : TPG ←
    if !wasEmpty then do
      match g.root, other.root with
      | some r1, some r2 => do
        let andNode := Node.mkAnd r1 r2
        let ga ← g1.addEdgeT andNode r1 { ts := ts1 }
        ga.addEdgeT andNode r2 { ts := ts2 }
      | _, _ => .error "NoneType root"
    else
      Except.ok { g1 with root := other.root }
  g2.applyAllCPs

/-- `logical_not`: hang a NOT above the root (timestamp as given or the
most recent one), then normalize. -/
def logicalNot (g : TPG) (tsArg : Option Timestamp := none) : Res TPG := do
  let ts ← match tsArg with
    | some t => Except.ok (some t)
    | none => g.getMostRecent
  match g.root with
  | none => .error "NoneType root"
  | some r => do
    let notNode := Node.mkNot r
    let g1 ← g.addEdgeT notNode r { ts := ts }
    g1.fixOrphan

/-- `logical_implication`: fails on an empty assumption or conclusion
root; otherwise merges the conclusion graph in and adds the two tagged
out-edges of a fresh `IMPLIES` node. -/
def logicalImplication (g other : TPG) (tsArg : Option Timestamp := none) :
    Res TPG := do
  match g.root with
  | none => .error "Implication cannot be performed with an empty assumption."
  | some r1 =>
    match other.root with
    | none => .error "Implication cannot be performed with an empty conclusion."
    | some r2 => do
      let implNode := Node.mkImpl r1 r2
      let assumptionTs ← match tsArg with
        | some t => Except.ok (some t)
        | none => g.getMostRecent
      let conclusionTs ← match tsArg with
        | some t => Except.ok (some t)
        | none => other.getMostRecent
      let g1 : TPG := { g with graph := g.graph.addEdgesFrom other.graph.edgeList }
      let g2 ← g1.addEdgeT implNode r1
        { ts := assumptionTs, impl := some .assumption }
      g2.addEdgeT implNode r2
        { ts := conclusionTs, impl := some .conclusion }

/-- `_find_deeper_common_node_in_graph`: walk the shared edge prefix of
the matched paths while the reached node still exists in the graph. -/
def deeperCommonAux (g : TPG) (paths : List (List PEdge)) (p0 : List PEdge) :
    Nat → Nat → Node → Option Node
  | 0, _, last => some last
  | fuel + 1, i, last =>
    match p0.get? i with
    | none => some last
    | some e =>
      if paths.all (fun p =>
          match p.get? i with
          | some pe => edgesMatchP g.now e pe
          | none => false) then
        if g.graph.hasNode e.dst then
          deeperCommonAux g paths p0 fuel (i + 1) e.dst
        else some last
      else some last

def findDeeperCommonNode (g : TPG) (paths : List (List PEdge)) :
    Res (Option Node) := do
  match paths.head? with
  | none => .error "IndexError"
  | some p0 =>
    match p0.head? with
    | none => .error "IndexError"
    | some e0 => do
      let top := e0.src
      if !(g.graph.hasNode top) then
        return none
      let minLen := (paths.map List.length).foldl Nat.min p0.length
      return deeperCommonAux g paths p0 minLen 0 top

/-- `_find_subgraph_most_recent_timestamp`: despite its `source` argument
it returns the most recent timestamp over all edges of the whole graph. -/
def findSubgraphMostRecentTs (g : TPG) : Res Timestamp := do
  let tss ← g.graph.edges.mapM (fun e => reqTs e.data.ts)
  maxTs g.now tss

/-- `TimedPropertyGraph.ModusPonensApplication`. -/
structure MPApp where
  implicationGraph : TPG
  matchingPaths : List (List PEdge)
  matchingTimestamps : List Timestamp
deriving DecidableEq, Repr

/-- `find_all_possible_modus_ponens`. -/
def findAllPossibleModusPonens (g implication : TPG) : Res (List MPApp) := do
  let (assumptionO, _conclusionO) ← implication.getTopLevelImplicationSubgraphs
  match assumptionO with
  | none => .error "AttributeError: NoneType"
  | some assumption => do
    let r ← g.findEquivalentSubgraphs assumption
    return (List.zip r.cases r.casesTs).map (fun p =>
      { implicationGraph := implication
        matchingPaths := p.1
        matchingTimestamps := p.2 })

/-- `apply_modus_ponens`, step 3: the timestamp a conclusion edge is added
with — an absolute timestamp is kept, a relative one is rebound to
`Absolute(t★ + δ)` for assumption-moment `t★`. -/
def rebindTs (now : Int) (tstar : Timestamp) (ts : Timestamp) : Timestamp :=
  if ts.isAbsolute then ts
  else .abs (tstar.absoluteValue now + ts.relativeValue)

/-- `apply_modus_ponens`, step 3: add a copy of the conclusion's edges to
the graph, each stamped with its `rebindTs`-rebound timestamp (merging
with `keep_newer` semantics when the edge pair already exists), and
collect the new timestamps in edge order. -/
def addConclusionEdges (g : TPG) (tstar : Timestamp) :
    List Edge → Res (TPG × List Timestamp)
  | [] => .ok (g, [])
  | e :: es => do
    let t ← reqTs e.data.ts
    let t' := rebindTs g.now tstar t
    let g' ← g.addEdgeT e.src e.dst { ts := some t' } true
    let (gf, tss) ← addConclusionEdges g' tstar es
    return (gf, t' :: tss)

/-- `apply_modus_ponens`. -/
def applyModusPonens (g : TPG) (m : MPApp) : Res TPG := do
  let (_assumptionO, conclusionO) ←
    m.implicationGraph.getTopLevelImplicationSubgraphs
  match conclusionO with
  | none => .error "AttributeError: NoneType"
  | some conclusion => do
    let assumptionTimestamp ← maxTs g.now m.matchingTimestamps
    -- Remove the assumption from the graph.
    let g1 := g.logicallyRemovePathSet
      (m.matchingPaths.map (fun p => p.map PEdge.ref))
    let useConclusionAsNewRoot := g1.graph.numberOfNodes == 0
    -- Add the conclusion as an unconnected component.
    let (g2, newConclusionTimestamps) ←
      addConclusionEdges g1 assumptionTimestamp conclusion.graph.edgeList
    let conclusionTimestamp ← maxTs g.now newConclusionTimestamps
    let g3 : TPG :=
      if useConclusionAsNewRoot then { g2 with root := conclusion.root }
      else g2
    -- Intervene an AND node to connect the conclusion component.
    let deeper ← g3.findDeeperCommonNode m.matchingPaths
    let g4 ←
      match deeper with
      | none => Except.ok g3
      | some d => do
        match conclusion.root with
        | none => .error "NoneType root"
        | some cr => do
          let andNode : Node :=
            { Node.mkAnd d cr with
              uid := 1 + g3.graph.nodes.foldl (fun mx n => Nat.max mx n.uid) 0 }
          let predecessorEdges := g3.graph.inEdges d
          let ga ← predecessorEdges.foldlM
            (fun (acc : TPG) pe => do
              let t ← acc.graph.tsOf pe.src pe.dst pe.key
              let acc1 : TPG :=
                { acc with graph := acc.graph.removeEdge pe.src pe.dst pe.key }
              acc1.addEdgeT pe.src andNode { ts := some t })
            g3
          let oldPartTimestamp ← ga.findSubgraphMostRecentTs
          let gb ← ga.addEdgeT andNode d { ts := some oldPartTimestamp }
          let gc ← gb.addEdgeT andNode cr { ts := some conclusionTimestamp }
          gc.fixOrphan
    g4.applyAllCPs

/-- `get_present_time_subgraph`: the edge-subgraph of the edges whose
timestamp matches `Absolute(now)`, inflated and normalized; `None` when no
edge matches. -/
def getPresentTimeSubgraph (g : TPG) : Res (Option TPG) := do
  let flags ← g.graph.edgeList.mapM (fun e => do
    let t ← reqTs e.data.ts
    Except.ok (e, Timestamp.tmatches g.now t (.abs g.now)))
  let presentRefs := (flags.filter Prod.snd).map (fun p => p.1.ref)
  let sub := g.graph.edgeSubgraph presentRefs
  let inflated ← g.inflateFromSubgraph sub
  match inflated with
  | none => Except.ok none
  | some p => do
    let p' ← p.fixOrphan
    return some p'

/-- `get_copy`: a fresh object (hence an empty constant-property list)
with a structural copy of the multigraph, sharing root node identity, the
time source and the textual representation. -/
def getCopy (g : TPG) : TPG :=
  { graph := g.graph, root := g.root, now := g.now,
    cps := [], textual := g.textual }

/-- Rebind a graph to a time source currently at `n` (each TPG may be
rebound to an alternate source; the engine uses one global source). -/
def withNow (g : TPG) (n : Int) : TPG := { g with now := n }

end TPG

/-! ## Concrete instances used by the theorems below -/

/-- A one-argument predicate graph, uniformly stamped, under a time
source currently at `n`. -/
def predG (name arg : String) (t : Timestamp) (n : Int) : TPG :=
  ((TPG.predicateGraph name [arg]).setTimestampAll t).withNow n

/-- Scenario for the modus-ponens timestamp rebinding: execution `a(w)`
at tick 10 (time source at 10), property `a ⇒ b` whose conclusion edges
are `Relative(+3)`. -/
def exC1exec : TPG := predG "a" "w" (.abs 10) 10

def exC1impl : Res TPG :=
  (predG "a" "w" (.rel 0) 10).logicalImplication (predG "b" "y" (.rel 3) 10)

def exC1apps : Res (List TPG.MPApp) := do
  let i ← exC1impl
  exC1exec.findAllPossibleModusPonens i

def exC1run : Res (Option Node × List Edge) := do
  let apps ← exC1apps
  match apps with
  | [m] => do
    let r ← exC1exec.applyModusPonens m
    Except.ok (r.root, r.graph.edges)
  | _ => .error "unexpected number of applications"

def nodeB : Node := Node.mkPredicate "b" ["y"]
def nodeY : Node := Node.mkVariable "y"

/-- The assumption-moment computed for the single application of the C1
scenario. -/
def exC1moment : Res Timestamp := do
  let apps ← exC1apps
  match apps with
  | [m] => maxTs exC1exec.now m.matchingTimestamps
  | _ => .error "unexpected number of applications"

/-! ## General lemmas -/

theorem foldMax_mem (now : Int) :
    ∀ (ts : List Timestamp) (init : Timestamp),
      (ts.foldl (fun best x => if Timestamp.tlt now best x then x else best) init)
          = init ∨
      (ts.foldl (fun best x => if Timestamp.tlt now best x then x else best) init)
          ∈ ts := by
  intro ts
  induction ts with
  | nil => intro init; exact Or.inl rfl
  | cons x xs ih =>
    intro init
    simp only [List.foldl_cons]
    rcases ih (if Timestamp.tlt now init x then x else init) with h | h
    · by_cases hc : Timestamp.tlt now init x
      · right
        rw [h, if_pos hc]
        exact List.mem_cons_self x xs
      · left
        rw [h, if_neg hc]
    · right
      exact List.mem_cons_of_mem x h

theorem foldMax_ge (now : Int) :
    ∀ (ts : List Timestamp) (init s : Timestamp),
      (s = init ∨ s ∈ ts) →
      Timestamp.resolve now s ≤ Timestamp.resolve now
        (ts.foldl (fun best x => if Timestamp.tlt now best x then x else best) init) := by
  intro ts
  induction ts with
  | nil =>
    intro init s hs
    rcases hs with h | h
    · subst h; exact le_refl _
    · cases h
  | cons x xs ih =>
    intro init s hs
    simp only [List.foldl_cons]
    have hstep : Timestamp.resolve now init ≤
        Timestamp.resolve now (if Timestamp.tlt now init x then x else init) := by
      by_cases hc : Timestamp.tlt now init x
      · rw [if_pos hc]
        exact le_of_lt (by simpa [Timestamp.tlt] using hc)
      · rw [if_neg hc]
    have hstepx : Timestamp.resolve now x ≤
        Timestamp.resolve now (if Timestamp.tlt now init x then x else init) := by
      by_cases hc : Timestamp.tlt now init x
      · rw [if_pos hc]
      · rw [if_neg hc]
        simp only [Timestamp.tlt, decide_eq_true_eq] at hc
        omega
    rcases hs with h | h
    · subst h
      exact le_trans hstep (ih _ _ (Or.inl rfl))
    · rcases List.mem_cons.mp h with h | h
      · subst h
        exact le_trans hstepx (ih _ _ (Or.inl rfl))
      · exact ih _ _ (Or.inr h)

/-- `max(timestamps)` really is a maximum: it is one of the timestamps and
bounds all of them under the time source. -/
theorem maxTs_spec (now : Int) (l : List Timestamp) (t : Timestamp)
    (h : maxTs now l = .ok t) :
    t ∈ l ∧ ∀ s ∈ l, Timestamp.resolve now s ≤ Timestamp.resolve now t := by
  match l with
  | [] => simp [maxTs] at h
  | t0 :: ts =>
    simp only [maxTs, Except.ok.injEq] at h
    constructor
    · rcases foldMax_mem now ts t0 with hm | hm
      · rw [h] at hm; rw [hm]; exact List.mem_cons_self _ _
      · rw [h] at hm; exact List.mem_cons_of_mem _ hm
    · intro s hs
      rw [← h]
      rcases List.mem_cons.mp hs with h1 | h1
      · exact foldMax_ge now ts t0 s (Or.inl h1)
      · exact foldMax_ge now ts t0 s (Or.inr h1)

theorem addEdgeT_now {g : TPG} {u v : Node} {d : EdgeData} {b : Bool} {g' : TPG}
    (h : TPG.addEdgeT g u v d b = .ok g') : g'.now = g.now := by
  unfold TPG.addEdgeT at h
  cases hs : TPG.addEdgeGraphStep g u v d b with
  | error e => rw [hs] at h; simp [Except.map] at h
  | ok m =>
    rw [hs] at h
    simp only [Except.map, Except.ok.injEq] at h
    rw [← h]

/-- The raw timestamps attached to a list of edges, when they all carry
one. -/
def tsListOf : List Edge → Option (List Timestamp)
  | [] => some []
  | e :: es =>
    match e.data.ts, tsListOf es with
    | some t, some ts => some (t :: ts)
    | _, _ => none

/-- The conclusion-copy step stamps exactly the rebound timestamps, in
edge order. -/
theorem addConclusionEdges_spec (tstar : Timestamp) :
    ∀ (es : List Edge) (g g' : TPG) (tss : List Timestamp),
      TPG.addConclusionEdges g tstar es = .ok (g', tss) →
      ∃ raw, tsListOf es = some raw ∧
        tss = raw.map (TPG.rebindTs g.now tstar) ∧ g'.now = g.now := by
  intro es
  induction es with
  | nil =>
    intro g g' tss h
    simp only [TPG.addConclusionEdges, Except.ok.injEq, Prod.mk.injEq] at h
    exact ⟨[], rfl, by simp [← h.2], by rw [h.1]⟩
  | cons e es ih =>
    intro g g' tss h
    simp only [TPG.addConclusionEdges] at h
    cases he : e.data.ts with
    | none => rw [he] at h; simp [reqTs, Bind.bind, Except.bind] at h
    | some t =>
      rw [he] at h
      simp only [reqTs, Bind.bind, Except.bind] at h
      cases ha : TPG.addEdgeT g e.src e.dst
          { ts := some (TPG.rebindTs g.now tstar t), impl := none } true with
      | error msg => rw [ha] at h; simp at h
      | ok g1 =>
        rw [ha] at h
        simp only at h
        cases hr : TPG.addConclusionEdges g1 tstar es with
        | error msg => rw [hr] at h; simp at h
        | ok pr =>
          rw [hr] at h
          simp only [pure, Except.pure, Except.ok.injEq] at h
          obtain ⟨raw, hraw, htss, hnow⟩ := ih g1 pr.1 pr.2 (by
            rw [hr])
          have hg1 : g1.now = g.now := addEdgeT_now ha
          have hgf : g' = pr.1 ∧ tss = TPG.rebindTs g.now tstar t :: pr.2 :=
            ⟨(congrArg Prod.fst h).symm, (congrArg Prod.snd h).symm⟩
          refine ⟨t :: raw, ?_, ?_, ?_⟩
          · simp [tsListOf, he, hraw]
          · rw [hgf.2, htss, hg1]
            simp
          · rw [hgf.1, hnow, hg1]

/-! ## Claim C6 -/

/-- Building `predicate("p").not().not()`. -/
def exC6run : Res TPG := do
  let g1 ← (TPG.predicateGraph "p" []).logicalNot
  g1.logicalNot

/-- C6: the code crashes instead of collapsing the double negation: the
edges of a freshly built predicate graph carry no timestamp attribute
(`_add_edge` drops `None` values), so the `NOT`-pair collapse triggered
inside the second `logical_not` fails looking up the timestamp of the
`NOT → NOT` edge (Python `KeyError`), rather than producing the
single-predicate graph the specification expects. -/
theorem claim_C6 : exC6run = .error "KeyError: timestamp" := by decide

/-! ## Claim C2 -/

/-- The parity of a raw path: `count_nots mod 2` (1 for negated). -/
def rawParity (p : List Edge) : Nat := countNotsRaw p % 2

/-- Scenario graph of the spec: assert `p@1`, then `not p@2`, on an
execution graph carrying the constant property, time source at 2. -/
def exC2run : Res TPG := do
  let e0 : TPG := { now := 2, cps := [.noPosNeg] }
  let a ← e0.logicalAnd (predG "p" "x" (.abs 1) 2)
  let n ← (predG "p" "x" (.abs 2) 2).logicalNot
  a.logicalAnd n

def exC2propP : TPG := predG "p" "x" (.rel 0) 2

def exC2propNP : Res TPG := exC2propP.logicalNot

/-- Three-path graph: assert `p@1`, `not p@2`, `p@3` (built without the
constant property, which is then applied once). -/
def exC2build : Res TPG := do
  let e0 : TPG := { now := 3 }
  let a ← e0.logicalAnd (predG "p" "x" (.abs 1) 3)
  let n ← (predG "p" "x" (.abs 2) 3).logicalNot
  let b ← a.logicalAnd n
  b.logicalAnd (predG "p" "x" (.abs 3) 3)

/-- The parity/timestamp table of the root-to-leaf paths through the
predicate node of `exC2build`, sorted as the constant property sorts
them (timestamp descending). -/
def exC2sortedParities : Res (List (Nat × Timestamp)) := do
  let g ← exC2build
  match g.root with
  | none => .error "no root"
  | some r => do
    let paths ← TPG.pathsPassingFromNode g.graph r g.getLeaves
      (Node.mkPredicate "p" ["x"])
    let tps ← paths.mapM (fun p => do
      let t ← g.findPathTimestampT p
      Except.ok (p, t))
    let sorted := stableSortDescBy (fun p => p.2.resolve g.now) tps
    return sorted.map (fun p => (rawParity p.1, p.2))

/-- Whether any edge of the graph carries the given timestamp. -/
def hasEdgeWithTs (g : TPG) (t : Timestamp) : Bool :=
  g.graph.edges.any (fun e => e.data.ts == some t)

/-- C2 counterexample: in the three-path graph the paths sorted by
timestamp descending have parities `[positive@3, negative@2, positive@1]`,
so the `@1` path has the same parity as the most recent path and the claim
says it is kept — but the constant property removes the whole suffix from
the first differing path on, so after `apply` no edge stamped `@1`
remains (the `@1` path is gone). -/
theorem cex_C2 :
    exC2sortedParities =
      .ok [(0, .abs 3), (1, .abs 2), (0, .abs 1)] ∧
    (do
      let g ← exC2build
      Except.ok (hasEdgeWithTs g (.abs 1))) = .ok true ∧
    (do
      let g ← exC2build
      let g' ← g.cpApply
      Except.ok (hasEdgeWithTs g' (.abs 1))) = .ok false := by
  refine ⟨by decide, by decide, by decide⟩

theorem cpPathsToRemove_eq_drop (l : List (List Edge × Timestamp))
    (mr : List Edge × Timestamp) (rest : List (List Edge × Timestamp))
    (hl : l = mr :: rest) :
    TPG.cpPathsToRemove l =
      l.drop (l.findIdx (fun p => (rawParity p.1 == 1) != (rawParity mr.1 == 1))) := by
  subst hl
  simp only [TPG.cpPathsToRemove, rawParity]
  by_cases hlt :
      (mr :: rest).findIdx
        (fun p => (countNotsRaw p.1 % 2 == 1) != (countNotsRaw mr.1 % 2 == 1)) <
        (mr :: rest).length
  · rw [if_pos hlt]
  · rw [if_neg hlt]
    have hle := @List.findIdx_le_length (List Edge × Timestamp)
      (fun p : List Edge × Timestamp =>
        (countNotsRaw p.1 % 2 == 1) != (countNotsRaw mr.1 % 2 == 1))
      (mr :: rest)
    have heq :
        (mr :: rest).findIdx
          (fun p => (countNotsRaw p.1 % 2 == 1) != (countNotsRaw mr.1 % 2 == 1)) =
          (mr :: rest).length := by omega
    rw [heq, List.drop_length]

/-- The predicate the constant property scans with: parity differing from
the most recent path's. -/
def diffPar (mr p : List Edge × Timestamp) : Bool :=
  (rawParity p.1 == 1) != (rawParity mr.1 == 1)

theorem rawParity_lt_two (p : List Edge) : rawParity p < 2 :=
  Nat.mod_lt _ (by omega)

theorem diffPar_false_iff (mr p : List Edge × Timestamp) :
    diffPar mr p = false ↔ rawParity p.1 = rawParity mr.1 := by
  have h1 := rawParity_lt_two p.1
  have h2 := rawParity_lt_two mr.1
  unfold diffPar
  interval_cases h : rawParity p.1 <;> interval_cases h2 : rawParity mr.1 <;>
    simp_all

theorem diffPar_true_iff (mr p : List Edge × Timestamp) :
    diffPar mr p = true ↔ rawParity p.1 ≠ rawParity mr.1 := by
  have h := diffPar_false_iff mr p
  cases hb : diffPar mr p <;> simp_all

/-- Kept prefix: every path strictly before the first differing one has
the most recent path's parity. -/
theorem cpKeptPrefix_parity (l : List (List Edge × Timestamp))
    (mr : List Edge × Timestamp) (j : Nat)
    (hj : j < l.findIdx (diffPar mr)) (hjl : j < l.length) :
    rawParity (l[j]).1 = rawParity mr.1 := by
  have := List.not_of_lt_findIdx hj
  exact (diffPar_false_iff mr _).mp this

/-- Every differing-parity path is removed. -/
theorem cpRemoved_of_diff (l : List (List Edge × Timestamp))
    (mr : List Edge × Timestamp) (rest : List (List Edge × Timestamp))
    (hl : l = mr :: rest) (p : List Edge × Timestamp) (hp : p ∈ l)
    (hd : rawParity p.1 ≠ rawParity mr.1) :
    p ∈ TPG.cpPathsToRemove l := by
  obtain ⟨j, hjl, hjp⟩ := List.mem_iff_getElem.mp hp
  have hpred : diffPar mr l[j] = true := by
    rw [hjp]; exact (diffPar_true_iff mr p).mpr hd
  have hge : l.findIdx (diffPar mr) ≤ j := by
    by_contra hc
    push_neg at hc
    have := List.not_of_lt_findIdx hc
    rw [this] at hpred
    exact Bool.false_ne_true hpred
  have hdropEq := cpPathsToRemove_eq_drop l mr rest hl
  have hdiff : (fun q => (rawParity q.1 == 1) != (rawParity mr.1 == 1)) =
      diffPar mr := by
    funext q; rfl
  rw [hdropEq, hdiff]
  set i := l.findIdx (diffPar mr) with hi
  obtain ⟨k, rfl⟩ : ∃ k, j = i + k := ⟨j - i, by omega⟩
  have hlen2 : k < (l.drop i).length := by
    rw [List.length_drop]; omega
  have heq : (l.drop i)[k] = l[i + k] := List.getElem_drop ..
  rw [← hjp, ← heq]
  exact List.getElem_mem hlen2

/-- C2 (amended): for a predicate node, the constant property removes the
whole suffix of the timestamp-descending path list starting at the first
path whose NOT-parity differs from the most recent path's — the kept
paths are exactly the maximal same-parity prefix, and in particular every
differing-parity path is removed (but same-parity paths occurring after a
differing one are removed too).  In the two-event scenario — assert `p@1`,
then `not p@2` — the `@1` path is removed, `contains_property_graph(p)`
is false and `contains_property_graph(not p)` is true. -/
theorem claim_C2 :
    (∀ (l : List (List Edge × Timestamp)) (mr : List Edge × Timestamp)
       (rest : List (List Edge × Timestamp)), l = mr :: rest →
       TPG.cpPathsToRemove l = l.drop (l.findIdx (diffPar mr)) ∧
       (∀ (j : Nat) (_hj : j < l.findIdx (diffPar mr)) (hjl : j < l.length),
         rawParity (l[j]).1 = rawParity mr.1) ∧
       (∀ p ∈ l, rawParity p.1 ≠ rawParity mr.1 →
         p ∈ TPG.cpPathsToRemove l)) ∧
    (exC2run.map (fun g => hasEdgeWithTs g (.abs 1))) = .ok false ∧
    (do
      let g ← exC2run
      g.containsPropertyGraph exC2propP) = .ok false ∧
    (do
      let g ← exC2run
      let np ← exC2propNP
      g.containsPropertyGraph np) = .ok true := by
  refine ⟨?_, by decide, by decide, by decide⟩
  intro l mr rest hl
  refine ⟨?_, fun j hj hjl => cpKeptPrefix_parity l mr j hj hjl,
    fun p hp hd => cpRemoved_of_diff l mr rest hl p hp hd⟩
  have hdiff : (fun q : List Edge × Timestamp =>
      (rawParity q.1 == 1) != (rawParity mr.1 == 1)) = diffPar mr := by
    funext q; rfl
  rw [cpPathsToRemove_eq_drop l mr rest hl, hdiff]

/-- A two-path instance for the witness: a positive path (parity 0) most
recent, then a negated path (parity 1). -/
def wPathPos : List Edge × Timestamp :=
  ([{ src := Node.mkPredicate "p" [], dst := Node.mkVariable "x", key := 0,
      data := { ts := some (.abs 2) } }], .abs 2)

def wPathNeg : List Edge × Timestamp :=
  ([{ src := Node.mkNot (Node.mkPredicate "p" []), dst := Node.mkPredicate "p" [],
      key := 0, data := { ts := some (.abs 1) } }], .abs 1)

/-! ## Claim C4 -/

/-- A node left untouched by a graph: not a node, not an edge endpoint. -/
def untouched (m : MG) (n : Node) : Prop :=
  n ∉ m.nodes ∧ ∀ e ∈ m.edges, e.src ≠ n ∧ e.dst ≠ n

/-- A generic preservation principle for `foldlM` over `Except`. -/
theorem foldlM_preserve {α β : Type} (Q : β → Prop) (step : β → α → Res β) :
    ∀ (l : List α),
      (∀ acc x b, x ∈ l → Q acc → step acc x = .ok b → Q b) →
      ∀ acc b, Q acc → l.foldlM step acc = .ok b → Q b := by
  intro l
  induction l with
  | nil =>
    intro _ acc b hq h
    simp only [List.foldlM_nil, pure, Except.pure, Except.ok.injEq] at h
    rw [← h]; exact hq
  | cons x xs ih =>
    intro hstep acc b hq h
    simp only [List.foldlM_cons, Bind.bind, Except.bind] at h
    cases hx : step acc x with
    | error e => rw [hx] at h; simp at h
    | ok acc1 =>
      rw [hx] at h
      exact ih (fun a y c hy => hstep a y c (List.mem_cons_of_mem _ hy))
        acc1 b (hstep acc x acc1 (List.mem_cons_self _ _) hq hx) h

theorem untouched_addNode {m : MG} {n u : Node} (h : untouched m n)
    (hu : u ≠ n) : untouched (m.addNode u) n := by
  unfold MG.addNode
  by_cases hc : m.hasNode u
  · simp [hc, h.1, h.2]
    exact h
  · simp only [hc, Bool.false_eq_true, if_false]
    refine ⟨?_, ?_⟩
    · intro hmem
      rcases List.mem_append.mp hmem with hm | hm
      · exact h.1 hm
      · simp at hm; exact hu hm.symm
    · exact h.2

theorem untouched_addEdgeKeyed {m : MG} {n u v : Node} {k : Nat} {d : EdgeData}
    (h : untouched m n) (hu : u ≠ n) (hv : v ≠ n) :
    untouched (m.addEdgeKeyed u v k d) n := by
  unfold MG.addEdgeKeyed
  have h2 := untouched_addNode (untouched_addNode h hu) hv
  set m2 := (m.addNode u).addNode v with hm2
  by_cases hc : m2.edges.any (fun e => e.src == u && e.dst == v && e.key == k)
  · simp only [hc, if_true]
    refine ⟨h2.1, ?_⟩
    intro e he
    simp only [List.mem_map] at he
    obtain ⟨e0, he0, heq⟩ := he
    by_cases hsel : e0.src == u && e0.dst == v && e0.key == k
    · rw [hsel] at heq
      simp only [if_true] at heq
      have := h2.2 e0 he0
      rw [← heq]
      exact this
    · simp only [hsel] at heq
      simp only [Bool.false_eq_true, if_false] at heq
      rw [← heq]
      exact h2.2 e0 he0
  · simp only [hc, Bool.false_eq_true, if_false]
    refine ⟨h2.1, ?_⟩
    intro e he
    rcases List.mem_append.mp he with hm | hm
    · exact h2.2 e hm
    · simp at hm
      rw [hm]
      exact ⟨hu, hv⟩

theorem untouched_addEdgeAuto {m : MG} {n u v : Node} {d : EdgeData}
    (h : untouched m n) (hu : u ≠ n) (hv : v ≠ n) :
    untouched (m.addEdgeAuto u v d) n := by
  unfold MG.addEdgeAuto
  have h2 := untouched_addNode (untouched_addNode h hu) hv
  refine ⟨h2.1, ?_⟩
  intro e he
  rcases List.mem_append.mp he with hm | hm
  · exact h2.2 e hm
  · simp at hm
    rw [hm]
    exact ⟨hu, hv⟩

theorem untouched_removeNode {m : MG} {n x : Node} (h : untouched m n) :
    untouched (m.removeNode x) n := by
  unfold MG.removeNode
  refine ⟨?_, ?_⟩
  · intro hmem
    exact h.1 (List.mem_filter.mp hmem).1
  · intro e he
    exact h.2 e (List.mem_filter.mp he).1

/-- Removing a node establishes its own untouchedness. -/
theorem untouched_removeNode_self (m : MG) (n : Node) :
    untouched (m.removeNode n) n := by
  unfold MG.removeNode
  refine ⟨?_, ?_⟩
  · intro hmem
    have := (List.mem_filter.mp hmem).2
    simp at this
  · intro e he
    have := (List.mem_filter.mp he).2
    simp only [Bool.not_eq_true', Bool.or_eq_false_iff, beq_eq_false_iff_ne] at this
    exact this

theorem untouched_addEdgeT {g : TPG} {n u v : Node} {d : EdgeData} {b : Bool}
    {g' : TPG} (h : untouched g.graph n) (hu : u ≠ n) (hv : v ≠ n)
    (hok : TPG.addEdgeT g u v d b = .ok g') : untouched g'.graph n := by
  unfold TPG.addEdgeT at hok
  cases hs : TPG.addEdgeGraphStep g u v d b with
  | error e => rw [hs] at hok; simp [Except.map] at hok
  | ok m =>
    rw [hs] at hok
    simp only [Except.map, Except.ok.injEq] at hok
    have hm : untouched m n := by
      unfold TPG.addEdgeGraphStep at hs
      by_cases hc : b && g.graph.hasEdgePair u v
      · rw [if_pos hc] at hs
        cases hk : (g.graph.keysBetween u v).head? with
        | none => rw [hk] at hs; simp at hs
        | some k =>
          rw [hk] at hs
          simp only at hs
          cases hd : g.graph.edgeData u v k with
          | none => rw [hd] at hs; simp at hs
          | some old =>
            rw [hd] at hs
            simp only at hs
            cases hmg : mergeTimestampedData g.now old d true with
            | error e => rw [hmg] at hs; simp [Except.map] at hs
            | ok nd =>
              rw [hmg] at hs
              simp only [Except.map, Except.ok.injEq] at hs
              rw [← hs]
              exact untouched_addEdgeKeyed h hu hv
      · rw [if_neg hc] at hs
        simp only [Except.ok.injEq] at hs
        rw [← hs]
        exact untouched_addEdgeAuto h hu hv
    rw [← hok]
    exact hm

theorem edgesFromRaw_subset {m : MG} {u : Node} {e : Edge}
    (h : e ∈ m.edgesFromRaw u) : e ∈ m.edges :=
  (List.mem_filter.mp h).1

theorem outEdges_subset {m : MG} {u : Node} {e : Edge}
    (h : e ∈ m.outEdges u) : e ∈ m.edges := by
  unfold MG.outEdges at h
  obtain ⟨v, _, hmem⟩ := List.mem_flatMap.mp h
  exact edgesFromRaw_subset (List.mem_filter.mp hmem).1

theorem edgeList_subset {m : MG} {e : Edge} (h : e ∈ m.edgeList) :
    e ∈ m.edges := by
  unfold MG.edgeList at h
  obtain ⟨u, _, hmem⟩ := List.mem_flatMap.mp h
  exact outEdges_subset hmem

theorem inEdges_subset {m : MG} {v : Node} {e : Edge}
    (h : e ∈ m.inEdges v) : e ∈ m.edges :=
  edgeList_subset (List.mem_filter.mp h).1

theorem untouched_propagate {g : TPG} {src : Node} {d : EdgeData} {n : Node}
    {g' : TPG} (h : untouched g.graph n)
    (hok : TPG.propagateEdgeData g src d = .ok g') : untouched g'.graph n := by
  unfold TPG.propagateEdgeData at hok
  refine foldlM_preserve (fun t : TPG => untouched t.graph n) _
    (g.graph.outEdges src) ?_ g g' h hok
  intro acc de b hde hq hstep
  simp only at hstep
  cases hd : acc.graph.edgeData de.src de.dst de.key with
  | none => rw [hd] at hstep; simp at hstep
  | some deeperData =>
    rw [hd] at hstep
    simp only at hstep
    cases ht : d.ts with
    | none => rw [ht] at hstep; simp [reqTs, Bind.bind, Except.bind] at hstep
    | some t =>
      rw [ht] at hstep
      cases htd : deeperData.ts with
      | none =>
        rw [htd] at hstep; simp [reqTs, Bind.bind, Except.bind] at hstep
      | some td =>
        rw [htd] at hstep
        simp only [reqTs, Bind.bind, Except.bind, pure, Except.pure,
          Except.ok.injEq] at hstep
        have hsrc : de.src ≠ n := (h.2 de (outEdges_subset hde)).1
        have hdst : de.dst ≠ n := (h.2 de (outEdges_subset hde)).2
        rw [← hstep]
        exact untouched_addEdgeKeyed hq hsrc hdst

/-- Splicing an AND leaves every node untouched by the original graph
untouched. -/
theorem untouched_removeOrphanAnd {g : TPG} {m n : Node} {g' : TPG}
    (h : untouched g.graph n)
    (hok : TPG.removeOrphanAndOperator g m = .ok g') :
    untouched g'.graph n := by
  unfold TPG.removeOrphanAndOperator at hok
  cases hse : (g.graph.outEdges m).head? with
  | none => rw [hse] at hok; simp at hok
  | some successorEdge =>
    rw [hse] at hok
    simp only at hok
    cases hsp : TPG.spliceReconnect g (g.graph.inEdges m) successorEdge with
    | error e => rw [hsp] at hok; simp [Except.map] at hok
    | ok gs =>
      rw [hsp] at hok
      simp only [Except.map, Except.ok.injEq] at hok
      have hsucc : successorEdge ∈ g.graph.edges :=
        outEdges_subset (List.mem_of_mem_head? hse)
      have hgs : untouched gs.graph n := by
        unfold TPG.spliceReconnect at hsp
        by_cases hc : g.graph.inEdges m != []
        · rw [if_pos hc] at hsp
          refine foldlM_preserve (fun t : TPG => untouched t.graph n) _
            (g.graph.inEdges m) ?_ g gs h hsp
          intro acc pe b hpe hq hstep
          simp only at hstep
          cases hp1 : pe.data.ts with
          | none =>
            rw [hp1] at hstep; simp [reqTs, Bind.bind, Except.bind] at hstep
          | some tp =>
            rw [hp1] at hstep
            cases hp2 : successorEdge.data.ts with
            | none =>
              rw [hp2] at hstep; simp [reqTs, Bind.bind, Except.bind] at hstep
            | some tsSucc =>
              rw [hp2] at hstep
              simp only [reqTs, Bind.bind, Except.bind] at hstep
              have hsrc : pe.src ≠ n := (h.2 pe (inEdges_subset hpe)).1
              have hdst : successorEdge.dst ≠ n := (h.2 _ hsucc).2
              exact untouched_addEdgeT hq hsrc hdst hstep
        · rw [if_neg hc] at hsp
          have hdst : successorEdge.dst ≠ n := (h.2 _ hsucc).2
          have h0 : untouched
              ({ g with root := some successorEdge.dst } : TPG).graph n := h
          exact untouched_propagate h0 hsp
      rw [← hok]
      exact untouched_removeNode hgs

/-- Splicing an AND makes the AND itself untouched. -/
theorem untouched_removeOrphanAnd_self {g : TPG} {m : Node} {g' : TPG}
    (hok : TPG.removeOrphanAndOperator g m = .ok g') :
    untouched g'.graph m := by
  unfold TPG.removeOrphanAndOperator at hok
  cases hse : (g.graph.outEdges m).head? with
  | none => rw [hse] at hok; simp at hok
  | some successorEdge =>
    rw [hse] at hok
    simp only at hok
    cases hsp : TPG.spliceReconnect g (g.graph.inEdges m) successorEdge with
    | error e => rw [hsp] at hok; simp [Except.map] at hok
    | ok gs =>
      rw [hsp] at hok
      simp only [Except.map, Except.ok.injEq] at hok
      rw [← hok]
      exact untouched_removeNode_self gs.graph m

/-- The orphan-AND pass removes every collected AND for good. -/
theorem removeOrphanAnds_removes :
    ∀ (l : List Node) (g g1 : TPG),
      l.foldlM (fun acc n => TPG.removeOrphanAndOperator acc n) g = .ok g1 →
      ∀ n ∈ l, untouched g1.graph n := by
  intro l
  induction l with
  | nil => intro g g1 _ n hn; cases hn
  | cons m rest ih =>
    intro g g1 h n hn
    simp only [List.foldlM_cons, Bind.bind, Except.bind] at h
    cases hx : TPG.removeOrphanAndOperator g m with
    | error e => rw [hx] at h; simp at h
    | ok ga =>
      rw [hx] at h
      rcases List.mem_cons.mp hn with h1 | h1
      · subst h1
        refine foldlM_preserve (fun t : TPG => untouched t.graph n) _
          rest ?_ ga g1 (untouched_removeOrphanAnd_self hx) h
        intro acc x b _ hq hstep
        exact untouched_removeOrphanAnd hq hstep
      · exact ih ga g1 h n h1

/-- The NOT-collapse loop ends without a `NOT → NOT` edge. -/
theorem collapseSequentialNots_post :
    ∀ (fuel : Nat) (g g' : TPG),
      TPG.collapseSequentialNots g fuel = .ok g' →
      TPG.findNotPair g' = none := by
  intro fuel
  induction fuel with
  | zero => intro g g' h; simp [TPG.collapseSequentialNots] at h
  | succ fuel ih =>
    intro g g' h
    simp only [TPG.collapseSequentialNots] at h
    cases hf : TPG.findNotPair g with
    | none =>
      rw [hf] at h
      simp only [Except.ok.injEq] at h
      rw [← h]; exact hf
    | some e =>
      rw [hf] at h
      simp only [Bind.bind, Except.bind] at h
      cases hc : TPG.collapseNotPair g e.src e.dst with
      | error msg => rw [hc] at h; simp at h
      | ok g1 =>
        rw [hc] at h
        exact ih g1 g' h

/-- Normalization is the identity on a graph with no orphan AND and no
`NOT → NOT` edge. -/
theorem fixOrphan_id (g : TPG) (h1 : TPG.orphanAndList g = [])
    (h2 : TPG.findNotPair g = none) : TPG.fixOrphan g = .ok g := by
  unfold TPG.fixOrphan TPG.removeOrphanAndOperators
  rw [h1]
  simp only [List.foldlM_nil, Bind.bind, Except.bind, pure, Except.pure]
  unfold TPG.collapseSequentialNots
  rw [h2]

/-- The C4 counterexample graph: a doubly-referenced NOT below both a
second NOT and a binary AND —
`AND(NOT NOT p, AND(NOT p, q))` with a shared `NOT p` node. -/
def exC4p : Node := Node.mkPredicate "p" []
def exC4q : Node := Node.mkPredicate "q" []
def exC4nb : Node := Node.mkNot exC4p
def exC4nc : Node := Node.mkNot exC4nb
def exC4az : Node := Node.mkAnd exC4nb exC4q
def exC4ar : Node := Node.mkAnd exC4nc exC4az

def exC4e (u v : Node) : Edge :=
  { src := u, dst := v, key := 0, data := { ts := some (.abs 1) } }

def exC4g : TPG :=
  { graph := { nodes := [exC4ar, exC4nc, exC4az, exC4nb, exC4p, exC4q]
               edges := [exC4e exC4ar exC4nc, exC4e exC4ar exC4az,
                         exC4e exC4nc exC4nb, exC4e exC4az exC4nb,
                         exC4e exC4az exC4q, exC4e exC4nb exC4p] }
    root := some exC4ar
    now := 0 }

/-- C4 counterexample: normalizing `exC4g` succeeds but leaves the AND
node `AND(NOT p, q)` with out-degree 1 in the result (collapsing the
`NOT NOT` pair deletes the shared lower NOT, robbing the AND of a child
after the orphan-AND pass already ran), and normalizing again changes the
graph — normalization neither restores the no-orphan-AND invariant nor is
idempotent. -/
theorem cex_C4 :
    (exC4g.fixOrphan.map (fun g =>
      (g.graph.nodes.contains exC4az, g.graph.outDegree exC4az))) =
      .ok (true, 1) ∧
    exC4az.kind = .andK ∧
    (do
      let g1 ← exC4g.fixOrphan
      let g2 ← g1.fixOrphan
      Except.ok (g1 == g2)) = .ok false := by
  exact ⟨by decide, rfl, by decide⟩

/-- C4 (amended): after a successful normalization no `NOT → NOT` edge
remains; the orphan-AND pass does remove every AND it collected (none of
them survives as a node or edge endpoint); and on any graph that already
has no orphan AND and no `NOT → NOT` edge normalization is the identity —
so it is idempotent whenever its result satisfies both invariants.  (By
the counterexample, the NOT-collapse can orphan an AND whose child was a
shared NOT, so the result does not always satisfy the orphan-AND
invariant.) -/
theorem claim_C4 :
    (∀ (fuel : Nat) (g g' : TPG),
       TPG.collapseSequentialNots g fuel = .ok g' →
       TPG.findNotPair g' = none) ∧
    (∀ (g g' : TPG), TPG.fixOrphan g = .ok g' → TPG.findNotPair g' = none) ∧
    (∀ (g g1 : TPG), TPG.removeOrphanAndOperators g = .ok g1 →
       ∀ n ∈ TPG.orphanAndList g, untouched g1.graph n) ∧
    (∀ (g : TPG), TPG.orphanAndList g = [] → TPG.findNotPair g = none →
       TPG.fixOrphan g = .ok g) := by
  refine ⟨collapseSequentialNots_post, ?_, ?_, fixOrphan_id⟩
  · intro g g' h
    unfold TPG.fixOrphan at h
    simp only [Bind.bind, Except.bind] at h
    cases hr : TPG.removeOrphanAndOperators g with
    | error e => rw [hr] at h; simp at h
    | ok g1 =>
      rw [hr] at h
      exact collapseSequentialNots_post _ g1 g' h
  · intro g g1 h
    unfold TPG.removeOrphanAndOperators at h
    exact removeOrphanAnds_removes (TPG.orphanAndList g) g g1 h

theorem claim_C4_witness :
    TPG.fixOrphan ({ now := 0 } : TPG) = .ok ({ now := 0 } : TPG) :=
  claim_C4.2.2.2 ({ now := 0 } : TPG) (by decide) (by decide)

/-! ## Claim C3 -/

/-- Property `a ⇒ b` whose conclusion is stamped `Relative(-1)`. -/
def exC3impl : Res TPG :=
  (predG "a" "w" (.rel 0) 10).logicalImplication (predG "b" "y" (.rel (-1)) 10)

/-- Apply it to the execution `a(w)@10`: the assumption-moment and the
resulting edges. -/
def exC3negRun : Res (Timestamp × List Edge) := do
  let i ← exC3impl
  let apps ← exC1exec.findAllPossibleModusPonens i
  match apps with
  | [m] => do
    let moment ← maxTs exC1exec.now m.matchingTimestamps
    let r ← exC1exec.applyModusPonens m
    Except.ok (moment, r.graph.edges)
  | _ => .error "unexpected number of applications"

/-- An execution on which `apply_modus_ponens` triggers the root splice of
an orphan AND: `not p` conjoined (with an explicitly old timestamp `@1`)
with `q ∧ not p`, the shared `NOT` node giving the matched path's first
edge a surviving target. -/
def exC3exec2 : Res TPG := do
  let l ← (predG "p" "x" (.abs 5) 1).logicalNot
  let l2 ← (predG "p" "x" (.abs 5) 1).logicalNot
  let r ← (predG "q" "y" (.abs 5) 1).logicalAnd l2
  l.logicalAnd r (some (.abs 1))

/-- Property `not p ⇒ r`. -/
def exC3prop2 : Res TPG := do
  let na ← (predG "p" "x" (.rel 0) 1).logicalNot
  na.logicalImplication (predG "r" "s" (.rel 0) 1)

def exC3andR : Node :=
  Node.mkAnd (Node.mkPredicate "q" ["y"]) (Node.mkNot (Node.mkPredicate "p" ["x"]))

def nodeQy : Node := Node.mkPredicate "q" ["y"]

/-- The timestamp of the inner AND's edge to `q(y)` before and after the
modus-ponens application. -/
def exC3before : Res Timestamp := do
  let g ← exC3exec2
  g.graph.tsOf exC3andR nodeQy 0

def exC3after : Res Timestamp := do
  let g ← exC3exec2
  let i ← exC3prop2
  let apps ← g.findAllPossibleModusPonens i
  match apps.head? with
  | none => .error "no application"
  | some m => do
    let r ← g.applyModusPonens m
    r.graph.tsOf exC3andR nodeQy 0

/-- C3 counterexample: (1) a conclusion edge stamped `Relative(-1)` and
matched at assumption-moment 10 is rebound to `Absolute(9) < 10`, so a
relatively-stamped conclusion edge is not always rebound to a value ≥ the
assumption-moment; (2) during `apply_modus_ponens` on `exC3exec2` the
normalization step splices out the orphaned root AND and propagates its
old `@1` edge metadata downward, decreasing the surviving edge
`AND(q, not p) → q(y)` from `@5` to `@1` — an edge present both before and
after the operation has its timestamp decreased. -/
theorem cex_C3 :
    exC3negRun = .ok (.abs 10,
      [{ src := nodeB, dst := nodeY, key := 0,
         data := { ts := some (.abs 9) } }]) ∧
    Timestamp.resolve 10 (.abs 9) < Timestamp.resolve 10 (.abs 10) ∧
    exC3before = .ok (.abs 5) ∧
    exC3after = .ok (.abs 1) ∧
    Timestamp.resolve 1 (.abs 1) < Timestamp.resolve 1 (.abs 5) := by
  exact ⟨by decide, by decide, by decide, by decide, by decide⟩

/-- C3 (amended): a conclusion edge rebound from `Relative(δ)` with δ ≥ 0
is stamped at least the assumption-moment; the assumption-removal step only
deletes edges (never altering a surviving edge's data); the in-place merge
used when a conclusion edge already exists keeps the newer timestamp, so
it never decreases one; the only timestamp-decreasing primitive is the
older-metadata propagation run when normalization splices out a root
operator, which retains the older of the two timestamps. -/
theorem claim_C3 :
    (∀ (now : Int) (tstar : Timestamp) (d : Int), 0 ≤ d →
       Timestamp.resolve now tstar ≤
         Timestamp.resolve now (TPG.rebindTs now tstar (.rel d))) ∧
    (∀ (g : TPG) (paths : List (List EdgeRef)) (e : Edge),
       e ∈ (TPG.logicallyRemovePathSet g paths).graph.edges →
       e ∈ g.graph.edges) ∧
    (∀ (now : Int) (d1 d2 r : EdgeData),
       mergeTimestampedData now d1 d2 true = .ok r →
       ∃ t1 t2 tr, d1.ts = some t1 ∧ d2.ts = some t2 ∧ r.ts = some tr ∧
         Timestamp.resolve now t1 ≤ Timestamp.resolve now tr ∧
         Timestamp.resolve now t2 ≤ Timestamp.resolve now tr) ∧
    (∀ (now : Int) (d deeperData : EdgeData) (t td : Timestamp),
       d.ts = some t → deeperData.ts = some td →
       (if Timestamp.tlt now t td then deeperData.update d
        else d.update deeperData).ts =
         some (if Timestamp.tlt now t td then t else td)) := by
  refine ⟨?_, ?_, ?_, ?_⟩
  · intro now tstar d hd
    simp only [TPG.rebindTs, Timestamp.isAbsolute, Timestamp.resolve,
      Timestamp.absoluteValue, Timestamp.relativeValue]
    cases tstar <;> simp [Timestamp.resolve] <;> omega
  · intro g paths e he
    simp only [TPG.logicallyRemovePathSet, disconnectFullyColorized] at he
    exact List.mem_filter.mp he |>.1
  · intro now d1 d2 r h
    unfold mergeTimestampedData at h
    cases h1 : d1.ts with
    | none => rw [h1] at h; simp [reqTs, Bind.bind, Except.bind] at h
    | some t1 =>
      cases h2 : d2.ts with
      | none => rw [h1, h2] at h; simp [reqTs, Bind.bind, Except.bind] at h
      | some t2 =>
        rw [h1, h2] at h
        simp only [reqTs, Bind.bind, Except.bind] at h
        by_cases hc : Timestamp.tlt now t2 t1
        · rw [if_pos hc] at h
          simp only [ite_true, if_true, pure, Except.pure, Except.ok.injEq] at h
          refine ⟨t1, t2, t1, rfl, rfl, ?_, le_refl _, ?_⟩
          · rw [← h]; simp [EdgeData.update, h1, h2, Option.orElse]
          · simp only [Timestamp.tlt, decide_eq_true_eq] at hc
            omega
        · rw [if_neg hc] at h
          simp only [ite_true, if_true, pure, Except.pure, Except.ok.injEq] at h
          refine ⟨t1, t2, t2, rfl, rfl, ?_, ?_, le_refl _⟩
          · rw [← h]; simp [EdgeData.update, h1, h2, Option.orElse]
          · simp only [Timestamp.tlt, decide_eq_true_eq] at hc
            omega
  · intro now d deeperData t td ht htd
    by_cases hc : Timestamp.tlt now t td
    · rw [if_pos hc, if_pos hc]
      simp [EdgeData.update, ht, htd, Option.orElse]
    · rw [if_neg hc, if_neg hc]
      simp [EdgeData.update, ht, htd, Option.orElse]

theorem claim_C3_witness :
    Timestamp.resolve 0 (.abs 4) ≤
      Timestamp.resolve 0 (TPG.rebindTs 0 (.abs 4) (.rel 2)) :=
  claim_C3.1 0 (.abs 4) 2 (by omega)

theorem claim_C2_witness :
    TPG.cpPathsToRemove [wPathPos, wPathNeg] =
      [wPathPos, wPathNeg].drop ([wPathPos, wPathNeg].findIdx (diffPar wPathPos)) ∧
    (∀ (j : Nat) (_hj : j < [wPathPos, wPathNeg].findIdx (diffPar wPathPos))
       (hjl : j < [wPathPos, wPathNeg].length),
       rawParity ([wPathPos, wPathNeg][j]).1 = rawParity wPathPos.1) ∧
    (∀ p ∈ [wPathPos, wPathNeg], rawParity p.1 ≠ rawParity wPathPos.1 →
       p ∈ TPG.cpPathsToRemove [wPathPos, wPathNeg]) :=
  claim_C2.1 [wPathPos, wPathNeg] wPathPos [wPathNeg] rfl

/-! ## The copy operation (C10) -/

/-- C10: `get_copy` hands back an object carrying the original's root
node, time source and textual representation together with a structurally
equal multigraph, while the constant-property list of the copy is always
empty; in particular `_apply_all_constant_properties` on a fresh copy is
an identity, and copying a graph that registered constant properties via
`add_constant_property` still yields an empty list. -/
theorem claim_C10 :
    ∀ (g : TPG) (cp : ConstProp),
      (TPG.getCopy g).graph = g.graph ∧
      (TPG.getCopy g).root = g.root ∧
      (TPG.getCopy g).now = g.now ∧
      (TPG.getCopy g).textual = g.textual ∧
      (TPG.getCopy g).cps = [] ∧
      TPG.applyAllCPs (TPG.getCopy g) = Except.ok (TPG.getCopy g) ∧
      (TPG.getCopy (TPG.addConstantProperty g cp)).cps = [] :=
  fun _ _ => ⟨rfl, rfl, rfl, rfl, rfl, rfl, rfl⟩

/-! ## The present-time subgraph (C9) -/

/-- The edge references selected by the comprehension opening
`get_present_time_subgraph`: the edges whose timestamp attribute matches
`Absolute(now)` under the graph's time source. -/
def TPG.presentTimeRefs (g : TPG) : Res (List EdgeRef) := do
  let flags ← g.graph.edgeList.mapM (fun e => do
    let t ← reqTs e.data.ts
    Except.ok (e, Timestamp.tmatches g.now t (.abs g.now)))
  Except.ok ((flags.filter Prod.snd).map (fun p => p.1.ref))

/-- Execution graph for the present-time scenario: `AND(p(x)@5, q(y)@3)`
under a time source at tick 5. -/
def exC9g : Res TPG :=
  (predG "p" "x" (.abs 5) 5).logicalAnd (predG "q" "y" (.abs 3) 5)

def exC9conc : TPG := match exC9g with | .ok g => g | .error _ => {}

/-- A graph whose single edge carries a future-relative timestamp. -/
def exC9fut : TPG := predG "p" "x" (.rel 2) 5

def nodeP9 : Node := Node.mkPredicate "p" ["x"]
def nodeX9 : Node := Node.mkVariable "x"
def nodeQ9 : Node := Node.mkPredicate "q" ["y"]
def andN9 : Node := Node.mkAnd nodeP9 nodeQ9

/-- The root of the present-time result on the scenario graph. -/
def exC9resRoot : Res (Option (Option Node)) := do
  let r ← TPG.getPresentTimeSubgraph exC9conc
  Except.ok (r.map (fun p => p.root))

/-- The node list of the present-time result on the scenario graph. -/
def exC9resNodes : Res (Option (List Node)) := do
  let r ← TPG.getPresentTimeSubgraph exC9conc
  Except.ok (r.map (fun p => p.graph.nodes))

/-- The edge references of the present-time result on the scenario graph. -/
def exC9resRefs : Res (Option (List EdgeRef)) := do
  let r ← TPG.getPresentTimeSubgraph exC9conc
  Except.ok (r.map (fun p => p.graph.edges.map Edge.ref))

theorem mapM_ok_mem {α β : Type} (f : α → Res β) :
    ∀ (l : List α) (ys : List β), l.mapM f = .ok ys →
      ∀ y ∈ ys, ∃ x ∈ l, f x = .ok y := by
  intro l
  induction l with
  | nil =>
    intro ys h y hy
    simp only [List.mapM_nil, pure, Except.pure, Except.ok.injEq] at h
    rw [← h] at hy
    exact absurd hy (List.not_mem_nil _)
  | cons x xs ih =>
    intro ys h y hy
    rw [List.mapM_cons] at h
    cases hx : f x with
    | error msg => rw [hx] at h; simp [Bind.bind, Except.bind] at h
    | ok b =>
      rw [hx] at h
      simp only [Bind.bind, Except.bind] at h
      cases hxs : xs.mapM f with
      | error msg => rw [hxs] at h; simp at h
      | ok bs =>
        rw [hxs] at h
        simp only [pure, Except.pure, Except.ok.injEq] at h
        rw [← h] at hy
        rcases List.mem_cons.mp hy with hb | hb
        · exact ⟨x, List.mem_cons_self _ _, hb ▸ hx⟩
        · rcases ih bs hxs y hb with ⟨x1, hx1, hfx1⟩
          exact ⟨x1, List.mem_cons_of_mem _ hx1, hfx1⟩

theorem mapM_ok_of_mem {α β : Type} (f : α → Res β) :
    ∀ (l : List α) (ys : List β), l.mapM f = .ok ys →
      ∀ x ∈ l, ∃ y ∈ ys, f x = .ok y := by
  intro l
  induction l with
  | nil =>
    intro ys _ x hx
    exact absurd hx (List.not_mem_nil _)
  | cons z zs ih =>
    intro ys h x hx
    rw [List.mapM_cons] at h
    cases hz : f z with
    | error msg => rw [hz] at h; simp [Bind.bind, Except.bind] at h
    | ok b =>
      rw [hz] at h
      simp only [Bind.bind, Except.bind] at h
      cases hzs : zs.mapM f with
      | error msg => rw [hzs] at h; simp at h
      | ok bs =>
        rw [hzs] at h
        simp only [pure, Except.pure, Except.ok.injEq] at h
        rcases List.mem_cons.mp hx with hb | hb
        · exact ⟨b, h ▸ List.mem_cons_self _ _, hb ▸ hz⟩
        · rcases ih bs hzs x hb with ⟨y, hy, hfy⟩
          exact ⟨y, h ▸ List.mem_cons_of_mem _ hy, hfy⟩

theorem flagsMapM_false (now : Int) :
    ∀ (l : List Edge),
      (∀ e ∈ l, ∃ t, e.data.ts = some t ∧
         Timestamp.tmatches now t (.abs now) = false) →
      l.mapM (fun e => do
        let t ← reqTs e.data.ts
        Except.ok (e, Timestamp.tmatches now t (.abs now))) =
      .ok (l.map (fun e => (e, false))) := by
  intro l
  induction l with
  | nil => intro _; rfl
  | cons x xs ih =>
    intro h
    rcases h x (List.mem_cons_self _ _) with ⟨t, ht, hm⟩
    rw [List.mapM_cons, ih (fun e he => h e (List.mem_cons_of_mem _ he))]
    simp [reqTs, ht, hm, Bind.bind, Except.bind, pure, Except.pure]

/-- C9: an edge reference is selected by the comprehension of
`get_present_time_subgraph` exactly when its edge's timestamp matches
`Absolute(now)` (conjuncts 3 and 4); a future-relative timestamp never
matches the present (conjunct 2), and a graph all of whose edges carry
non-matching timestamps yields `None` — not an empty graph object
(conjunct 1).  The returned value is the selected edge-subgraph inflated
and then normalized by `_fix_orphan_logical_operators`, rather than that
induced subgraph itself (conjunct 5). -/
theorem claim_C9 :
    (∀ g : TPG,
       g.graph.edgeList.all (fun e =>
         match e.data.ts with
         | some t => !(Timestamp.tmatches g.now t (.abs g.now))
         | none => false) = true →
       TPG.getPresentTimeSubgraph g = Except.ok none) ∧
    (∀ (now d : Int), 0 < d →
       Timestamp.tmatches now (.rel d) (.abs now) = false) ∧
    (∀ (g : TPG) (refs : List EdgeRef) (r : EdgeRef),
       TPG.presentTimeRefs g = Except.ok refs → r ∈ refs →
       ∃ e ∈ g.graph.edgeList, Edge.ref e = r ∧
         ∃ t, e.data.ts = some t ∧
           Timestamp.tmatches g.now t (.abs g.now) = true) ∧
    (∀ (g : TPG) (refs : List EdgeRef) (e : Edge) (t : Timestamp),
       TPG.presentTimeRefs g = Except.ok refs → e ∈ g.graph.edgeList →
       e.data.ts = some t → Timestamp.tmatches g.now t (.abs g.now) = true →
       Edge.ref e ∈ refs) ∧
    (∀ (g : TPG) (refs : List EdgeRef) (r : Option TPG),
       TPG.presentTimeRefs g = Except.ok refs →
       TPG.getPresentTimeSubgraph g = Except.ok r →
       (do
         let inflated ← g.inflateFromSubgraph (g.graph.edgeSubgraph refs)
         match inflated with
         | none => Except.ok none
         | some p => do
           let pf ← TPG.fixOrphan p
           return some pf) = Except.ok r) := by
  refine ⟨?_, ?_, ?_, ?_, ?_⟩
  · intro g hall
    have hprop : ∀ e ∈ g.graph.edgeList, ∃ t, e.data.ts = some t ∧
        Timestamp.tmatches g.now t (.abs g.now) = false := by
      intro e he
      have := List.all_eq_true.mp hall e he
      cases hts : e.data.ts with
      | none => rw [hts] at this; simp at this
      | some t =>
        rw [hts] at this
        simp only [Bool.not_eq_true'] at this
        exact ⟨t, rfl, this⟩
    unfold TPG.getPresentTimeSubgraph
    rw [flagsMapM_false g.now g.graph.edgeList hprop]
    simp only [Bind.bind, Except.bind]
    have hfilter : (g.graph.edgeList.map (fun e => (e, false))).filter Prod.snd
        = [] := by
      refine List.filter_eq_nil_iff.mpr ?_
      intro p hp
      rcases List.mem_map.mp hp with ⟨e, _, rfl⟩
      simp
    rw [hfilter]
    simp only [List.map_nil]
    have hsub : g.graph.edgeSubgraph [] = { nodes := [], edges := [] } := by
      unfold MG.edgeSubgraph
      have he : g.graph.edges.filter (fun e => List.contains [] e.ref) = [] := by
        refine List.filter_eq_nil_iff.mpr ?_
        intro e _
        simp [List.contains]
      rw [he]
      simp
    rw [hsub]
    rfl
  · intro now d hd
    simp only [Timestamp.tmatches]
    rw [beq_eq_false_iff_ne]
    omega
  · intro g refs r hrefs hr
    unfold TPG.presentTimeRefs at hrefs
    cases hm : g.graph.edgeList.mapM (fun e => do
        let t ← reqTs e.data.ts
        Except.ok (e, Timestamp.tmatches g.now t (.abs g.now))) with
    | error msg => rw [hm] at hrefs; simp [Bind.bind, Except.bind] at hrefs
    | ok flags =>
      rw [hm] at hrefs
      simp only [Bind.bind, Except.bind, Except.ok.injEq] at hrefs
      rw [← hrefs] at hr
      rcases List.mem_map.mp hr with ⟨p, hp, rfl⟩
      have hpf := List.mem_filter.mp hp
      rcases mapM_ok_mem _ _ _ hm p hpf.1 with ⟨e, he, hfe⟩
      refine ⟨e, he, ?_⟩
      cases hts : e.data.ts with
      | none => rw [hts] at hfe; simp [reqTs, Bind.bind, Except.bind] at hfe
      | some t =>
        rw [hts] at hfe
        simp only [reqTs, Bind.bind, Except.bind, Except.ok.injEq] at hfe
        have hp1 : p.1 = e := by rw [← hfe]
        have hp2 : p.2 = Timestamp.tmatches g.now t (.abs g.now) := by
          rw [← hfe]
        refine ⟨by rw [hp1], t, rfl, ?_⟩
        rw [← hp2]
        exact hpf.2
  · intro g refs e t hrefs he hts hmatch
    unfold TPG.presentTimeRefs at hrefs
    cases hm : g.graph.edgeList.mapM (fun e => do
        let t ← reqTs e.data.ts
        Except.ok (e, Timestamp.tmatches g.now t (.abs g.now))) with
    | error msg => rw [hm] at hrefs; simp [Bind.bind, Except.bind] at hrefs
    | ok flags =>
      rw [hm] at hrefs
      simp only [Bind.bind, Except.bind, Except.ok.injEq] at hrefs
      rcases mapM_ok_of_mem _ _ _ hm e he with ⟨y, hy, hfy⟩
      simp only [reqTs, hts, Bind.bind, Except.bind, Except.ok.injEq] at hfy
      rw [← hrefs]
      refine List.mem_map.mpr ⟨y, ?_, by rw [← hfy]⟩
      refine List.mem_filter.mpr ⟨hy, ?_⟩
      rw [← hfy]
      exact hmatch
  · intro g refs r hrefs hres
    unfold TPG.presentTimeRefs at hrefs
    unfold TPG.getPresentTimeSubgraph at hres
    cases hm : g.graph.edgeList.mapM (fun e => do
        let t ← reqTs e.data.ts
        Except.ok (e, Timestamp.tmatches g.now t (.abs g.now))) with
    | error msg => rw [hm] at hrefs; simp [Bind.bind, Except.bind] at hrefs
    | ok flags =>
      rw [hm] at hrefs hres
      simp only [Bind.bind, Except.bind, Except.ok.injEq] at hrefs
      simp only [Bind.bind, Except.bind] at hres
      rw [hrefs] at hres
      simp only [Bind.bind, Except.bind]
      exact hres

theorem claim_C9_witness :
    TPG.getPresentTimeSubgraph exC9fut = Except.ok none ∧
    Timestamp.tmatches 5 (.rel 2) (.abs 5) = false ∧
    (∃ e ∈ exC9conc.graph.edgeList, Edge.ref e = (nodeP9, nodeX9, 0) ∧
       ∃ t, e.data.ts = some t ∧
         Timestamp.tmatches exC9conc.now t (.abs exC9conc.now) = true) ∧
    Edge.ref { src := nodeP9, dst := nodeX9, key := 0,
               data := { ts := some (.abs 5) } } ∈
      [(nodeP9, nodeX9, 0), (andN9, nodeP9, 0)] ∧
    (do
      let inflated ← exC9fut.inflateFromSubgraph
        (exC9fut.graph.edgeSubgraph [])
      match inflated with
      | none => Except.ok none
      | some p => do
        let pf ← TPG.fixOrphan p
        return some pf) = Except.ok (none : Option TPG) :=
  ⟨claim_C9.1 exC9fut (by decide),
   claim_C9.2.1 5 2 (by decide),
   claim_C9.2.2.1 exC9conc [(nodeP9, nodeX9, 0), (andN9, nodeP9, 0)]
     (nodeP9, nodeX9, 0) (by decide) (by decide),
   claim_C9.2.2.2.1 exC9conc [(nodeP9, nodeX9, 0), (andN9, nodeP9, 0)]
     { src := nodeP9, dst := nodeX9, key := 0, data := { ts := some (.abs 5) } }
     (.abs 5) (by decide) (by decide) (by decide) (by decide),
   claim_C9.2.2.2.2 exC9fut [] none (by decide) (by decide)⟩

/-- C9 counterexample: on `AND(p(x)@5, q(y)@3)` at tick 5 the comprehension
selects both present edges — `p(x)→x` and `AND→p(x)` — yet the returned
graph keeps only `p(x)→x` with root `p(x)`: normalization spliced the
orphaned `AND` away, so the result is not the subgraph induced by exactly
the matching edges.  On an all-future-relative graph the function returns
`None`, not an empty graph object. -/
theorem cex_C9 :
    TPG.presentTimeRefs exC9conc =
      Except.ok [(nodeP9, nodeX9, 0), (andN9, nodeP9, 0)] ∧
    exC9resRoot = Except.ok (some (some nodeP9)) ∧
    exC9resNodes = Except.ok (some [nodeP9, nodeX9]) ∧
    exC9resRefs = Except.ok (some [(nodeP9, nodeX9, 0)]) ∧
    TPG.getPresentTimeSubgraph exC9fut = Except.ok none := by
  refine ⟨by decide, by decide, by decide, by decide, by decide⟩

/-! ## Subgraph timestamp updates (C8) -/

theorem addNode_edges (g : MG) (n : Node) : (MG.addNode g n).edges = g.edges := by
  unfold MG.addNode
  split <;> rfl

theorem find_append_none {α : Type} (p : α → Bool) (l1 l2 : List α)
    (h : l1.find? p = none) : (l1 ++ l2).find? p = l2.find? p := by
  induction l1 with
  | nil => rfl
  | cons x xs ih =>
    cases hpx : p x with
    | true => rw [List.find?_cons_of_pos _ hpx] at h; exact absurd h (by simp)
    | false =>
      rw [List.find?_cons_of_neg _ (by simp [hpx])] at h
      rw [List.cons_append, List.find?_cons_of_neg _ (by simp [hpx])]
      exact ih h

theorem find_append_some {α : Type} (p : α → Bool) (l1 l2 : List α) (x : α)
    (h : l1.find? p = some x) : (l1 ++ l2).find? p = some x := by
  induction l1 with
  | nil => exact absurd h (by simp)
  | cons y ys ih =>
    cases hpy : p y with
    | true =>
      rw [List.find?_cons_of_pos _ hpy] at h
      rw [List.cons_append, List.find?_cons_of_pos _ hpy]
      exact h
    | false =>
      rw [List.find?_cons_of_neg _ (by simp [hpy])] at h
      rw [List.cons_append, List.find?_cons_of_neg _ (by simp [hpy])]
      exact ih h

theorem mem_addEdgeKeyed_of_ne (g : MG) (u v : Node) (k : Nat) (d : EdgeData)
    (e : Edge) (he : e ∈ g.edges) (hne : Edge.ref e ≠ (u, v, k)) :
    e ∈ (MG.addEdgeKeyed g u v k d).edges := by
  have hm : (e.src == u && e.dst == v && e.key == k) = false := by
    by_contra hc
    rw [Bool.not_eq_false] at hc
    simp only [Bool.and_eq_true, beq_iff_eq] at hc
    exact hne (by simp only [Edge.ref, hc.1.1, hc.1.2, hc.2])
  unfold MG.addEdgeKeyed
  simp only [addNode_edges]
  split
  · exact List.mem_map.mpr ⟨e, he, by simp [hm]⟩
  · exact List.mem_append.mpr (Or.inl he)

/-- After `add_edge` on an existing `(u, v, k)` edge with attribute data
whose timestamp is `τ`, the stored data at `(u, v, k)` carries timestamp
`τ` (Python `dict.update` lets the new entries win). -/
theorem edgeData_ts_addEdgeKeyed_self (g : MG) (u v : Node) (k : Nat)
    (d dOld : EdgeData) (hold : MG.edgeData g u v k = some dOld)
    (τ : Timestamp) (hts : d.ts = some τ) :
    ∃ d0, (MG.addEdgeKeyed g u v k d).edgeData u v k = some d0 ∧
      d0.ts = some τ := by
  unfold MG.edgeData at hold
  cases hf : g.edges.find? (fun e => e.src == u && e.dst == v && e.key == k) with
  | none => rw [hf] at hold; exact absurd hold (by simp)
  | some e1 =>
    have he1 := List.find?_some hf
    have hany : (g.edges.any (fun e => e.src == u && e.dst == v && e.key == k))
        = true :=
      List.any_eq_true.mpr ⟨e1, List.mem_of_find?_eq_some hf, he1⟩
    unfold MG.addEdgeKeyed MG.edgeData
    simp only [addNode_edges]
    rw [if_pos hany, List.find?_map]
    have hcf : ((fun e : Edge => e.src == u && e.dst == v && e.key == k) ∘
        (fun e : Edge => if e.src == u && e.dst == v && e.key == k then
          { e with data := e.data.update d } else e)) =
        (fun e : Edge => e.src == u && e.dst == v && e.key == k) := by
      funext e
      by_cases hme : (e.src == u && e.dst == v && e.key == k) = true
      · simp only [Function.comp]; rw [if_pos hme]
      · simp only [Function.comp]; rw [if_neg hme]
    rw [hcf, hf]
    refine ⟨e1.data.update d, ?_,
      by simp [EdgeData.update, hts, Option.orElse]⟩
    rw [Option.map_some', Option.map_some', if_pos he1]

/-- After `add_edge` with attribute data stamped `τ`, any `(u0, v0, k0)`
lookup either is unchanged or yields data stamped `τ`. -/
theorem edgeData_ts_addEdgeKeyed (g : MG) (u v : Node) (k : Nat)
    (d : EdgeData) (τ : Timestamp) (hts : d.ts = some τ)
    (u0 v0 : Node) (k0 : Nat) :
    (MG.addEdgeKeyed g u v k d).edgeData u0 v0 k0 = MG.edgeData g u0 v0 k0 ∨
    ∃ d0, (MG.addEdgeKeyed g u v k d).edgeData u0 v0 k0 = some d0 ∧
      d0.ts = some τ := by
  unfold MG.addEdgeKeyed MG.edgeData
  simp only [addNode_edges]
  by_cases hc : (g.edges.any (fun e => e.src == u && e.dst == v && e.key == k))
      = true
  · rw [if_pos hc, List.find?_map]
    have hcf : ((fun e : Edge => e.src == u0 && e.dst == v0 && e.key == k0) ∘
        (fun e : Edge => if e.src == u && e.dst == v && e.key == k then
          { e with data := e.data.update d } else e)) =
        (fun e : Edge => e.src == u0 && e.dst == v0 && e.key == k0) := by
      funext e
      by_cases hme : (e.src == u && e.dst == v && e.key == k) = true
      · simp only [Function.comp]; rw [if_pos hme]
      · simp only [Function.comp]; rw [if_neg hme]
    rw [hcf]
    cases hf : g.edges.find?
        (fun e => e.src == u0 && e.dst == v0 && e.key == k0) with
    | none => left; simp
    | some e1 =>
      by_cases hm1 : (e1.src == u && e1.dst == v && e1.key == k) = true
      · right
        refine ⟨e1.data.update d, ?_,
          by simp [EdgeData.update, hts, Option.orElse]⟩
        rw [Option.map_some', Option.map_some', if_pos hm1]
      · left
        rw [Option.map_some', Option.map_some', if_neg hm1]
        exact rfl
  · rw [if_neg hc]
    cases hf : g.edges.find?
        (fun e => e.src == u0 && e.dst == v0 && e.key == k0) with
    | some e1 => left; rw [find_append_some _ _ _ _ hf]
    | none =>
      rw [find_append_none _ _ _ hf]
      cases hn : (u == u0 && v == v0 && k == k0) with
      | true =>
        right
        refine ⟨d, ?_, hts⟩
        simp [List.find?, hn]
      | false =>
        left
        simp [List.find?, hn]

/-- `update_path_timestamp` stamps every edge of the path with the given
timestamp (later path edges can only re-stamp with the same value). -/
theorem updatePathTimestamp_restamps (t : Timestamp) :
    ∀ (p : List PEdge) (g g' : TPG),
      TPG.updatePathTimestamp g p t = Except.ok g' →
      ∀ pe ∈ p, ∃ d, g'.graph.edgeData pe.src pe.dst pe.key = some d ∧
        d.ts = some t := by
  intro p
  induction p with
  | nil => intro g g' _ pe hpe; exact absurd hpe (List.not_mem_nil _)
  | cons pe0 rest ih =>
    intro g g' h pe hpe
    unfold TPG.updatePathTimestamp at h
    rw [List.foldlM_cons] at h
    simp only [Bind.bind, Except.bind] at h
    cases hd0 : g.graph.edgeData pe0.src pe0.dst pe0.key with
    | none => rw [hd0] at h; simp at h
    | some d0 =>
      rw [hd0] at h
      simp only [pure, Except.pure] at h
      rcases List.mem_cons.mp hpe with rfl | hrest
      · have hstart := edgeData_ts_addEdgeKeyed_self g.graph pe.src pe.dst
          pe.key { d0 with ts := some t } d0 hd0 t rfl
        refine foldlM_preserve
          (fun acc : TPG => ∃ dq,
            acc.graph.edgeData pe.src pe.dst pe.key = some dq ∧
            dq.ts = some t)
          _ rest ?_ _ g' hstart h
        intro acc pe1 b _ hq hstep
        cases hd1 : acc.graph.edgeData pe1.src pe1.dst pe1.key with
        | none => rw [hd1] at hstep; simp at hstep
        | some d1 =>
          rw [hd1] at hstep
          simp only [pure, Except.pure, Except.ok.injEq] at hstep
          rw [← hstep]
          rcases edgeData_ts_addEdgeKeyed acc.graph pe1.src pe1.dst pe1.key
              { d1 with ts := some t } t rfl pe.src pe.dst pe.key with
            heq | hsome
          · rcases hq with ⟨dq, hdq, hts⟩
            refine ⟨dq, ?_, hts⟩
            show (acc.graph.addEdgeKeyed pe1.src pe1.dst pe1.key
              { d1 with ts := some t }).edgeData pe.src pe.dst pe.key = some dq
            rw [heq]
            exact hdq
          · exact hsome
      · exact ih _ g' (by unfold TPG.updatePathTimestamp; exact h) pe hrest

def nodeP8 : Node := Node.mkPredicate "p" ["x"]
def nodeX8 : Node := Node.mkVariable "x"
def nodeQ8 : Node := Node.mkPredicate "q" ["y"]
def nodeY8 : Node := Node.mkVariable "y"
def andA8 : Node := Node.mkAnd nodeP8 nodeQ8
def andB8 : Node := Node.mkAnd andA8 nodeP8

/-- The C8 scenario graph: `AND(AND(p(x)@1, q(y)@1)@1, p(x)@2)` wired at
tick 1 with explicit `Absolute(1)` operator edges. -/
def exC8exec : Res TPG := do
  let c ← (predG "p" "x" (.abs 1) 1).logicalAnd (predG "q" "y" (.abs 1) 1)
    (some (.abs 1))
  c.logicalAnd (predG "p" "x" (.abs 2) 1) (some (.abs 1))

def exC8conc : TPG := match exC8exec with | .ok g => g | .error _ => {}

/-- The subgraph to restamp: the bare `p(x)` predicate graph. -/
def exC8sub : TPG := predG "p" "x" (.rel 0) 1

/-- The first matching case: the occurrence of `p(x)` through the inner
`AND`. -/
def exC8caseLong : List (List PEdge) :=
  [[⟨andB8, andA8, 0, .abs 1⟩, ⟨andA8, nodeP8, 0, .abs 1⟩,
    ⟨nodeP8, nodeX8, 0, .abs 2⟩]]

/-- The second matching case: the direct occurrence of `p(x)` under the
outer `AND`. -/
def exC8caseShort : List (List PEdge) :=
  [[⟨andB8, nodeP8, 0, .abs 1⟩, ⟨nodeP8, nodeX8, 0, .abs 2⟩]]

def exC8findRes : TPG.FindRes :=
  { cases := [exC8caseLong, exC8caseShort]
    matchedPaths := [[⟨nodeP8, nodeX8, 0, .rel 0⟩]]
    originalTs := [.rel 0]
    casesTs := [[.abs 1], [.abs 1]] }

/-- A subgraph with no occurrence in the scenario graph. -/
def exC8missing : TPG := predG "r" "z" (.rel 0) 1

def exC8emptyRes : TPG.FindRes :=
  { cases := [], matchedPaths := [], originalTs := [], casesTs := [] }

def exC8upd : Res TPG :=
  TPG.updateSubgraphTimestamp exC8conc exC8sub (.abs 9)

def exC8after : Res (List (Node × Node × Nat × Option Timestamp)) := do
  let g ← exC8upd
  Except.ok (g.graph.edges.map (fun e => (e.src, e.dst, e.key, e.data.ts)))

/-- A single-edge path update used to witness the frame and restamp
conjuncts. -/
def exC8one : Res TPG :=
  TPG.updatePathTimestamp exC8conc [⟨nodeP8, nodeX8, 0, .abs 2⟩] (.abs 9)

def exC8oneConc : TPG := match exC8one with | .ok g => g | .error _ => {}

def eQY8 : Edge :=
  { src := nodeQ8, dst := nodeY8, key := 0, data := { ts := some (.abs 1) } }

/-- C8: given the result of `find_equivalent_subgraphs`, the update
raises exactly when no case was found (conjunct 1); otherwise it restamps
the first case — even when further matches exist (conjunct 2); an edge
sharing no reference with the restamped paths is carried over unchanged
(conjunct 3); and every edge on a restamped path ends up stamped with the
new timestamp (conjunct 4).  Edges shared with other occurrences are
restamped too, so other occurrences do not keep their timestamps. -/
theorem claim_C8 :
    (∀ (g sub : TPG) (t : Timestamp) (r : TPG.FindRes),
       TPG.findEquivalentSubgraphs g sub = Except.ok r → r.cases = [] →
       TPG.updateSubgraphTimestamp g sub t = Except.error
         "Failed to update timestamps of given subgraph: subgraph not found.") ∧
    (∀ (g sub : TPG) (t : Timestamp) (r : TPG.FindRes) (c : List (List PEdge))
       (rest : List (List (List PEdge))),
       TPG.findEquivalentSubgraphs g sub = Except.ok r → r.cases = c :: rest →
       TPG.updateSubgraphTimestamp g sub t =
         c.foldlM (fun acc p => TPG.updatePathTimestamp acc p t) g) ∧
    (∀ (g g' : TPG) (p : List PEdge) (t : Timestamp) (e : Edge),
       TPG.updatePathTimestamp g p t = Except.ok g' →
       e ∈ g.graph.edges → (∀ pe ∈ p, PEdge.ref pe ≠ Edge.ref e) →
       e ∈ g'.graph.edges) ∧
    (∀ (g g' : TPG) (p : List PEdge) (t : Timestamp),
       TPG.updatePathTimestamp g p t = Except.ok g' →
       ∀ pe ∈ p, ∃ d, g'.graph.edgeData pe.src pe.dst pe.key = some d ∧
         d.ts = some t) := by
  refine ⟨?_, ?_, ?_, ?_⟩
  · intro g sub t r hfind hcases
    unfold TPG.updateSubgraphTimestamp
    simp only [Bind.bind, Except.bind]
    rw [hfind]
    show (match r.cases with
      | [] => Except.error
          "Failed to update timestamps of given subgraph: subgraph not found."
      | c :: _ =>
        List.foldlM (fun acc p => TPG.updatePathTimestamp acc p t) g c) = _
    rw [hcases]
  · intro g sub t r c rest hfind hcases
    unfold TPG.updateSubgraphTimestamp
    simp only [Bind.bind, Except.bind]
    rw [hfind]
    show (match r.cases with
      | [] => Except.error
          "Failed to update timestamps of given subgraph: subgraph not found."
      | c :: _ =>
        List.foldlM (fun acc p => TPG.updatePathTimestamp acc p t) g c) = _
    rw [hcases]
  · intro g g' p t e h he hd
    unfold TPG.updatePathTimestamp at h
    refine foldlM_preserve (fun acc : TPG => e ∈ acc.graph.edges) _ p ?_
      g g' he h
    intro acc pe b hpe hq hstep
    cases hdd : acc.graph.edgeData pe.src pe.dst pe.key with
    | none => rw [hdd] at hstep; simp at hstep
    | some dd =>
      rw [hdd] at hstep
      simp only [pure, Except.pure, Except.ok.injEq] at hstep
      rw [← hstep]
      exact mem_addEdgeKeyed_of_ne acc.graph pe.src pe.dst pe.key
        { dd with ts := some t } e hq (fun hc => hd pe hpe (hc ▸ rfl))
  · intro g g' p t h
    exact updatePathTimestamp_restamps t p g g' h

theorem claim_C8_witness :
    TPG.updateSubgraphTimestamp exC8conc exC8missing (.abs 9) = Except.error
      "Failed to update timestamps of given subgraph: subgraph not found." ∧
    TPG.updateSubgraphTimestamp exC8conc exC8sub (.abs 9) =
      exC8caseLong.foldlM
        (fun acc p => TPG.updatePathTimestamp acc p (.abs 9)) exC8conc ∧
    eQY8 ∈ exC8oneConc.graph.edges ∧
    (∃ d, exC8oneConc.graph.edgeData nodeP8 nodeX8 0 = some d ∧
       d.ts = some (.abs 9)) :=
  ⟨claim_C8.1 exC8conc exC8missing (.abs 9) exC8emptyRes (by decide) (by decide),
   claim_C8.2.1 exC8conc exC8sub (.abs 9) exC8findRes exC8caseLong
     [exC8caseShort] (by decide) (by decide),
   claim_C8.2.2.1 exC8conc exC8oneConc [⟨nodeP8, nodeX8, 0, .abs 2⟩] (.abs 9)
     eQY8 (by decide) (by decide) (by decide),
   claim_C8.2.2.2 exC8conc exC8oneConc [⟨nodeP8, nodeX8, 0, .abs 2⟩] (.abs 9)
     (by decide) ⟨nodeP8, nodeX8, 0, .abs 2⟩ (by decide)⟩

/-- C8 counterexample: on `AND(AND(p(x), q(y)), p(x))` the subgraph
`p(x)` has two equivalent occurrences; the update proceeds with the first
(through the inner `AND`), whose leaf edge `p(x)→x` is shared with the
second occurrence's path — after the update that edge carries the new
timestamp `Absolute(9)` instead of its old `Absolute(2)`, so the other
occurrence's timestamps did not stay unchanged. -/
theorem cex_C8 :
    TPG.findEquivalentSubgraphs exC8conc exC8sub = Except.ok exC8findRes ∧
    exC8findRes.cases.length = 2 ∧
    (∃ path ∈ exC8caseShort, (⟨nodeP8, nodeX8, 0, .abs 2⟩ : PEdge) ∈ path) ∧
    exC8caseShort ≠ exC8caseLong ∧
    MG.tsOf exC8conc.graph nodeP8 nodeX8 0 = Except.ok (.abs 2) ∧
    (do
      let g ← exC8upd
      MG.tsOf g.graph nodeP8 nodeX8 0) = Except.ok (.abs 9) ∧
    exC8after = Except.ok
      [(nodeP8, nodeX8, 0, some (.abs 9)),
       (nodeQ8, nodeY8, 0, some (.abs 1)),
       (andA8, nodeP8, 0, some (.abs 9)),
       (andA8, nodeQ8, 0, some (.abs 1)),
       (andB8, andA8, 0, some (.abs 9)),
       (andB8, nodeP8, 0, some (.abs 1))] := by
  refine ⟨by decide, by decide, by decide, by decide, by decide, by decide,
    by decide⟩

/-! ## Logical implication (C7) -/

/-- `add_edge` without a key on a source with no existing out-edges
creates the edge with automatic key 0. -/
theorem addEdgeAuto_edges_of_fresh (g : MG) (u v : Node) (d : EdgeData)
    (h : ∀ e ∈ g.edges, e.src ≠ u) :
    (MG.addEdgeAuto g u v d).edges =
      g.edges ++ [{ src := u, dst := v, key := 0, data := d }] := by
  have hfe : ((g.addNode u).addNode v).edges.filter
      (fun e => e.src == u && e.dst == v) = [] := by
    simp only [addNode_edges]
    refine List.filter_eq_nil_iff.mpr ?_
    intro e he
    simp only [Bool.and_eq_true, beq_iff_eq]
    exact fun hc => h e he hc.1
  have hkb : MG.keysBetween ((g.addNode u).addNode v) u v = [] := by
    unfold MG.keysBetween
    rw [hfe]
    rfl
  have hfk : MG.freshKey ((g.addNode u).addNode v) u v = 0 := by
    unfold MG.freshKey MG.keysBetween
    rw [hfe]
    rfl
  show ((g.addNode u).addNode v).edges ++
      [{ src := u, dst := v,
         key := MG.freshKey ((g.addNode u).addNode v) u v, data := d }] = _
  rw [addNode_edges, addNode_edges, hfk]

/-- Two keyless `add_edge` calls on a fresh source: the first gets key 0,
the second gets key 1 when it parallels the first and key 0 otherwise. -/
theorem addEdgeAuto_edges_two (g : MG) (u v1 v2 : Node) (d1 d2 : EdgeData)
    (h : ∀ e ∈ g.edges, e.src ≠ u) :
    ((MG.addEdgeAuto g u v1 d1).addEdgeAuto u v2 d2).edges =
      g.edges ++
        [{ src := u, dst := v1, key := 0, data := d1 },
         { src := u, dst := v2, key := if v2 == v1 then 1 else 0,
           data := d2 }] := by
  have he1 : (MG.addEdgeAuto g u v1 d1).edges =
      g.edges ++ [{ src := u, dst := v1, key := 0, data := d1 }] :=
    addEdgeAuto_edges_of_fresh g u v1 d1 h
  have hfe2 : (((MG.addEdgeAuto g u v1 d1).addNode u).addNode v2).edges.filter
      (fun e => e.src == u && e.dst == v2) =
      if v2 == v1 then [{ src := u, dst := v1, key := 0, data := d1 }]
      else [] := by
    simp only [addNode_edges, he1, List.filter_append]
    have hl : g.edges.filter (fun e => e.src == u && e.dst == v2) = [] := by
      refine List.filter_eq_nil_iff.mpr ?_
      intro e he
      simp only [Bool.and_eq_true, beq_iff_eq]
      exact fun hc => h e he hc.1
    rw [hl, List.nil_append]
    by_cases h21 : v2 = v1
    · subst h21
      simp [List.filter]
    · have hb : (v2 == v1) = false := beq_eq_false_iff_ne.mpr h21
      have hb2 : (v1 == v2) = false :=
        beq_eq_false_iff_ne.mpr (fun hc => h21 hc.symm)
      simp [List.filter, hb, hb2]
  have hfk2 : MG.freshKey (((MG.addEdgeAuto g u v1 d1).addNode u).addNode v2)
      u v2 = if v2 == v1 then 1 else 0 := by
    unfold MG.freshKey MG.keysBetween
    rw [hfe2]
    by_cases h21 : (v2 == v1) = true
    · rw [if_pos h21, if_pos h21]
      rfl
    · rw [if_neg h21, if_neg h21]
      rfl
  show (((MG.addEdgeAuto g u v1 d1).addNode u).addNode v2).edges ++
      [{ src := u, dst := v2,
         key := MG.freshKey (((MG.addEdgeAuto g u v1 d1).addNode u).addNode v2)
           u v2, data := d2 }] = _
  rw [addNode_edges, addNode_edges, he1, hfk2, List.append_assoc]
  rfl

/-- The C7 mixed-timestamp scenario: `AND` of an untimestamped `p(x)`
predicate graph and a stamped `q(y)` graph (both roots present). -/
def exC7mixed : Res TPG :=
  (TPG.predicateGraph "p" ["x"]).logicalAnd (predG "q" "y" (.abs 1) 0)

def exC7conc : TPG := match exC7mixed with | .ok g => g | .error _ => {}

def exC7other : TPG := predG "r" "s" (.abs 1) 0

def nodeA7 : Node := Node.mkPredicate "a" ["w"]
def nodeW7 : Node := Node.mkVariable "w"
def nodeB7 : Node := Node.mkPredicate "b" ["y"]
def nodeY7 : Node := Node.mkVariable "y"
def impl7 : Node := Node.mkImpl nodeA7 nodeB7

/-- C7: `logical_implication` fails with the empty-assumption (resp.
empty-conclusion) error when the assumption's (resp. conclusion's) root is
`None` (conjuncts 1 and 2); with an explicit timestamp, both roots present
and a fresh `IMPLIES` node it succeeds, the new root is the `IMPLIES`
node, the merged edges are extended by exactly the `ASSUMPTION`-tagged
edge to the assumption root and the `CONCLUSION`-tagged edge to the
conclusion root, and those two are exactly the `IMPLIES` node's out-edges
(conjunct 3).  With the default timestamp the operation can also fail on
two non-empty operands (mixed timestamp attributes), so the error
condition is not exactly ''a root is empty''. -/
theorem claim_C7 :
    (∀ (g other : TPG) (tsArg : Option Timestamp), g.root = none →
       TPG.logicalImplication g other tsArg = Except.error
         "Implication cannot be performed with an empty assumption.") ∧
    (∀ (g other : TPG) (tsArg : Option Timestamp) (r1 : Node),
       g.root = some r1 → other.root = none →
       TPG.logicalImplication g other tsArg = Except.error
         "Implication cannot be performed with an empty conclusion.") ∧
    (∀ (g other : TPG) (t : Timestamp) (r1 r2 : Node),
       g.root = some r1 → other.root = some r2 →
       (∀ e ∈ (g.graph.addEdgesFrom other.graph.edgeList).edges,
          e.src ≠ Node.mkImpl r1 r2) →
       r2 ≠ Node.mkImpl r1 r2 →
       ∃ g', TPG.logicalImplication g other (some t) = Except.ok g' ∧
         g'.root = some (Node.mkImpl r1 r2) ∧
         g'.graph.edges =
           (g.graph.addEdgesFrom other.graph.edgeList).edges ++
             [{ src := Node.mkImpl r1 r2, dst := r1, key := 0,
                data := { ts := some t, impl := some .assumption } },
              { src := Node.mkImpl r1 r2, dst := r2,
                key := if r2 == r1 then 1 else 0,
                data := { ts := some t, impl := some .conclusion } }] ∧
         g'.graph.edgesFromRaw (Node.mkImpl r1 r2) =
           [{ src := Node.mkImpl r1 r2, dst := r1, key := 0,
              data := { ts := some t, impl := some .assumption } },
            { src := Node.mkImpl r1 r2, dst := r2,
              key := if r2 == r1 then 1 else 0,
              data := { ts := some t, impl := some .conclusion } }]) := by
  refine ⟨?_, ?_, ?_⟩
  · intro g other tsArg h
    unfold TPG.logicalImplication
    rw [h]
  · intro g other tsArg r1 h1 h2
    unfold TPG.logicalImplication
    rw [h1, h2]
  · intro g other t r1 r2 h1 h2 hfresh hne
    have hne' : (r2 == Node.mkImpl r1 r2) = false := beq_eq_false_iff_ne.mpr hne
    have hedges := addEdgeAuto_edges_two
      (g.graph.addEdgesFrom other.graph.edgeList) (Node.mkImpl r1 r2) r1 r2
      { ts := some t, impl := some .assumption }
      { ts := some t, impl := some .conclusion } hfresh
    refine ⟨{ graph :=
                ((g.graph.addEdgesFrom other.graph.edgeList).addEdgeAuto
                  (Node.mkImpl r1 r2) r1
                  { ts := some t, impl := some .assumption }).addEdgeAuto
                  (Node.mkImpl r1 r2) r2
                  { ts := some t, impl := some .conclusion }
              root := some (Node.mkImpl r1 r2)
              now := g.now
              cps := g.cps
              textual := g.textual }, ?_, rfl, hedges, ?_⟩
    · unfold TPG.logicalImplication TPG.addEdgeT TPG.addEdgeGraphStep
      rw [h1, h2]
      simp only [Bind.bind, Except.bind, Except.map, Bool.false_and,
        Bool.false_eq_true, if_false, beq_self_eq_true, if_true, hne',
        ite_true, ite_false]
    · unfold MG.edgesFromRaw
      rw [hedges, List.filter_append]
      have hl : (g.graph.addEdgesFrom other.graph.edgeList).edges.filter
          (fun e => e.src == Node.mkImpl r1 r2) = [] := by
        refine List.filter_eq_nil_iff.mpr ?_
        intro e he
        simp only [beq_iff_eq]
        exact hfresh e he
      rw [hl, List.nil_append]
      simp [List.filter]

theorem cex_C7 :
    exC7conc.root.isSome = true ∧
    exC7other.root.isSome = true ∧
    TPG.logicalImplication exC7conc exC7other =
      Except.error "TypeError: comparison with None" := by
  refine ⟨by decide, by decide, by decide⟩

theorem claim_C7_witness :
    TPG.logicalImplication ({} : TPG) exC7other none = Except.error
      "Implication cannot be performed with an empty assumption." ∧
    TPG.logicalImplication exC7other ({} : TPG) none = Except.error
      "Implication cannot be performed with an empty conclusion." ∧
    (∃ g', TPG.logicalImplication (predG "a" "w" (.rel 0) 0)
        (predG "b" "y" (.rel 3) 0) (some (.abs 7)) = Except.ok g' ∧
      g'.root = some (Node.mkImpl nodeA7 nodeB7) ∧
      g'.graph.edges =
        ((predG "a" "w" (.rel 0) 0).graph.addEdgesFrom
            (predG "b" "y" (.rel 3) 0).graph.edgeList).edges ++
          [{ src := Node.mkImpl nodeA7 nodeB7, dst := nodeA7, key := 0,
             data := { ts := some (.abs 7), impl := some .assumption } },
           { src := Node.mkImpl nodeA7 nodeB7, dst := nodeB7,
             key := if nodeB7 == nodeA7 then 1 else 0,
             data := { ts := some (.abs 7), impl := some .conclusion } }] ∧
      g'.graph.edgesFromRaw (Node.mkImpl nodeA7 nodeB7) =
        [{ src := Node.mkImpl nodeA7 nodeB7, dst := nodeA7, key := 0,
           data := { ts := some (.abs 7), impl := some .assumption } },
         { src := Node.mkImpl nodeA7 nodeB7, dst := nodeB7,
           key := if nodeB7 == nodeA7 then 1 else 0,
           data := { ts := some (.abs 7), impl := some .conclusion } }]) :=
  ⟨claim_C7.1 {} exC7other none (by decide),
   claim_C7.2.1 exC7other {} none
     (Node.mkPredicate "r" ["s"]) (by decide) (by decide),
   claim_C7.2.2 (predG "a" "w" (.rel 0) 0) (predG "b" "y" (.rel 3) 0)
     (.abs 7) nodeA7 nodeB7 (by decide) (by decide) (by decide) (by decide)⟩

/-! ## Conjunction and its commutativity (C5) -/

theorem char_eq_of_toNat_eq (a b : Char) (h : a.toNat = b.toNat) : a = b :=
  Char.ext (UInt32.ext h)

/-- Python string `<` (code-point lexicographic) is asymmetric. -/
theorem charListLt_asymm : ∀ as bs, Node.charListLt as bs = true →
    Node.charListLt bs as = false := by
  intro as
  induction as with
  | nil =>
    intro bs h
    cases bs with
    | nil => simp [Node.charListLt] at h
    | cons b bs => rfl
  | cons a as ih =>
    intro bs h
    cases bs with
    | nil => simp [Node.charListLt] at h
    | cons b bs =>
      unfold Node.charListLt at h ⊢
      by_cases h1 : a.toNat < b.toNat
      · have h2 : ¬ b.toNat < a.toNat := by omega
        rw [if_neg h2, if_pos h1]
      · rw [if_neg h1] at h
        by_cases h2 : b.toNat < a.toNat
        · rw [if_pos h2] at h
          exact absurd h (by simp)
        · rw [if_neg h2] at h
          rw [if_neg h2, if_neg h1]
          exact ih bs h

/-- Two strings neither of which is `<` the other are equal. -/
theorem charListLt_conn : ∀ as bs, Node.charListLt as bs = false →
    Node.charListLt bs as = false → as = bs := by
  intro as
  induction as with
  | nil =>
    intro bs h1 _
    cases bs with
    | nil => rfl
    | cons b bs => simp [Node.charListLt] at h1
  | cons a as ih =>
    intro bs h1 h2
    cases bs with
    | nil => simp [Node.charListLt] at h2
    | cons b bs =>
      unfold Node.charListLt at h1 h2
      by_cases hab : a.toNat < b.toNat
      · rw [if_pos hab] at h1
        exact absurd h1 (by simp)
      · by_cases hba : b.toNat < a.toNat
        · rw [if_pos hba] at h2
          exact absurd h2 (by simp)
        · rw [if_neg hab, if_neg hba] at h1
          rw [if_neg hba, if_neg hab] at h2
          have hc : a = b := char_eq_of_toNat_eq a b (by omega)
          rw [hc, ih bs h1 h2]

/-- Python's stable sort of a two-element list is order-insensitive. -/
theorem sortStrings_pair (x y : String) :
    Node.sortStrings [x, y] = Node.sortStrings [y, x] := by
  show Node.insertStr y (Node.insertStr x []) =
    Node.insertStr x (Node.insertStr y [])
  show (if Node.strLt y x = true then [y, x] else [x, y]) =
    (if Node.strLt x y = true then [x, y] else [y, x])
  by_cases h1 : Node.strLt y x = true
  · have h2 : Node.strLt x y = false := charListLt_asymm y.data x.data h1
    rw [if_pos h1, if_neg (by simp [h2])]
  · by_cases h3 : Node.strLt x y = true
    · rw [if_neg h1, if_pos h3]
    · have h1f : Node.strLt y x = false := by
        cases hv : Node.strLt y x with
        | true => exact absurd hv h1
        | false => rfl
      have h3f : Node.strLt x y = false := by
        cases hv : Node.strLt x y with
        | true => exact absurd hv h3
        | false => rfl
      have hxy : x = y := String.ext (charListLt_conn x.data y.data h3f h1f)
      rw [hxy]

/-- C5 core identity: the `AND` operator node is insensitive to the
operand order (its rendering sorts the operand renderings). -/
theorem mkAnd_comm (a b : Node) : Node.mkAnd a b = Node.mkAnd b a := by
  unfold Node.mkAnd Node.operatorRender
  rw [if_pos (rfl : true = true), if_pos (rfl : true = true),
    sortStrings_pair a.render b.render]

/-- `add_edges_from` on reference-disjoint edge lists is a plain
append. -/
theorem addEdgesFrom_append (g : MG) (es : List Edge)
    (hdisj : ∀ e ∈ es, ∀ e0 ∈ g.edges, Edge.ref e0 ≠ Edge.ref e)
    (hpw : List.Pairwise (fun x y => Edge.ref x ≠ Edge.ref y) es) :
    (MG.addEdgesFrom g es).edges = g.edges ++ es := by
  induction es generalizing g with
  | nil => simp [MG.addEdgesFrom]
  | cons e es ih =>
    have hany : (((g.addNode e.src).addNode e.dst).edges.any
        (fun e0 => e0.src == e.src && e0.dst == e.dst && e0.key == e.key))
        = false := by
      simp only [addNode_edges]
      rw [List.any_eq_false]
      intro e0 he0
      simp only [Bool.and_eq_true, beq_iff_eq]
      intro hc
      exact hdisj e (List.mem_cons_self _ _) e0 he0
        (by simp [Edge.ref, hc.1.1, hc.1.2, hc.2])
    have hstep : MG.addEdgeKeyed g e.src e.dst e.key e.data =
        { (g.addNode e.src).addNode e.dst with edges := g.edges ++ [e] } := by
      unfold MG.addEdgeKeyed
      rw [if_neg (by rw [hany]; simp)]
      simp only [addNode_edges]
    show (MG.addEdgesFrom (MG.addEdgeKeyed g e.src e.dst e.key e.data)
      es).edges = g.edges ++ e :: es
    rw [hstep]
    rw [ih _ (fun x hx e0 he0 => by
        rcases List.mem_append.mp he0 with hg | he
        · exact hdisj x (List.mem_cons_of_mem _ hx) e0 hg
        · rcases List.mem_singleton.mp he with rfl
          exact (List.pairwise_cons.mp hpw).1 x hx)
      (List.pairwise_cons.mp hpw).2]
    rw [List.append_assoc]
    rfl

def aC5 : TPG := predG "p" "x" (.abs 5) 10
def bC5 : TPG := predG "p" "x" (.abs 1) 10
def qC5 : TPG := predG "q" "y" (.abs 3) 10
def nodeP5 : Node := Node.mkPredicate "p" ["x"]
def nodeQ5 : Node := Node.mkPredicate "q" ["y"]

def exC5X : Res TPG := aC5.logicalAnd bC5
def exC5Y : Res TPG := bC5.logicalAnd aC5

/-- Both orders of the conflicting conjunction, tested for mutual
containment. -/
def exC5contains : Res (Bool × Bool) := do
  let X ← exC5X
  let Y ← exC5Y
  let c1 ← X.containsPropertyGraph Y
  let c2 ← Y.containsPropertyGraph X
  return (c1, c2)

/-- Both orders of the benign (predicate-disjoint) conjunction, tested
for mutual containment. -/
def exC5good : Res (Bool × Bool) := do
  let X ← aC5.logicalAnd qC5
  let Y ← qC5.logicalAnd aC5
  let c1 ← X.containsPropertyGraph Y
  let c2 ← Y.containsPropertyGraph X
  return (c1, c2)

/-- Mutual containment of the two orders on an untimestamped operand. -/
def exC5err : Res (Bool × Bool) := do
  let X ← (TPG.predicateGraph "p" ["x"]).logicalAnd qC5
  let Y ← qC5.logicalAnd (TPG.predicateGraph "p" ["x"])
  let c1 ← X.containsPropertyGraph Y
  let c2 ← Y.containsPropertyGraph X
  return (c1, c2)

/-- C5: the `AND` node is identical for the two operand orders
(conjunct 1, universal).  For reference-disjoint non-empty operands with
fresh `AND` node the two orders succeed, produce the same root and carry
the same edges up to the documented reordering: each result is the first
operand's stored edge list, then the second operand's edges in iteration
order, then the two `AND` edges (conjunct 2).  On predicate-disjoint
timestamped operands the two orders are mutually containing
(conjunct 3). -/
theorem claim_C5 :
    (∀ a b : Node, Node.mkAnd a b = Node.mkAnd b a) ∧
    (∀ (a b : TPG) (tsA tsB : Option Timestamp) (ra rb : Node),
       a.root = some ra → b.root = some rb →
       a.cps = [] → b.cps = [] →
       a.graph.numberOfNodes ≠ 0 → b.graph.numberOfNodes ≠ 0 →
       a.getMostRecent = Except.ok tsA → b.getMostRecent = Except.ok tsB →
       (∀ e ∈ b.graph.edgeList, ∀ e0 ∈ a.graph.edges,
          Edge.ref e0 ≠ Edge.ref e) →
       (∀ e ∈ a.graph.edgeList, ∀ e0 ∈ b.graph.edges,
          Edge.ref e0 ≠ Edge.ref e) →
       List.Pairwise (fun x y => Edge.ref x ≠ Edge.ref y) a.graph.edgeList →
       List.Pairwise (fun x y => Edge.ref x ≠ Edge.ref y) b.graph.edgeList →
       (∀ e ∈ a.graph.edges, e.src ≠ Node.mkAnd ra rb) →
       (∀ e ∈ a.graph.edgeList, e.src ≠ Node.mkAnd ra rb) →
       (∀ e ∈ b.graph.edges, e.src ≠ Node.mkAnd ra rb) →
       (∀ e ∈ b.graph.edgeList, e.src ≠ Node.mkAnd ra rb) →
       rb ≠ ra → ra ≠ Node.mkAnd ra rb → rb ≠ Node.mkAnd ra rb →
       ∃ X Y, TPG.logicalAnd a b = Except.ok X ∧
         TPG.logicalAnd b a = Except.ok Y ∧
         X.root = some (Node.mkAnd ra rb) ∧
         Y.root = some (Node.mkAnd ra rb) ∧
         X.graph.edges = a.graph.edges ++ b.graph.edgeList ++
           [{ src := Node.mkAnd ra rb, dst := ra, key := 0,
              data := { ts := tsA } },
            { src := Node.mkAnd ra rb, dst := rb, key := 0,
              data := { ts := tsB } }] ∧
         Y.graph.edges = b.graph.edges ++ a.graph.edgeList ++
           [{ src := Node.mkAnd ra rb, dst := rb, key := 0,
              data := { ts := tsB } },
            { src := Node.mkAnd ra rb, dst := ra, key := 0,
              data := { ts := tsA } }]) ∧
    exC5good = Except.ok (true, true) := by
  refine ⟨mkAnd_comm, ?_, by decide⟩
  intro a b tsA tsB ra rb h1 h2 hcpsA hcpsB ha0 hb0 hga hgb hdisjAB hdisjBA
    hpwA hpwB hfreshA hfreshAL hfreshB hfreshBL hrr hraAnd hrbAnd
  have ha0b : (a.graph.numberOfNodes == 0) = false :=
    beq_eq_false_iff_ne.mpr ha0
  have hb0b : (b.graph.numberOfNodes == 0) = false :=
    beq_eq_false_iff_ne.mpr hb0
  have hrab : (ra == Node.mkAnd ra rb) = false :=
    beq_eq_false_iff_ne.mpr hraAnd
  have hrbb : (rb == Node.mkAnd ra rb) = false :=
    beq_eq_false_iff_ne.mpr hrbAnd
  have hrrb : (rb == ra) = false := beq_eq_false_iff_ne.mpr hrr
  have hrrb2 : (ra == rb) = false :=
    beq_eq_false_iff_ne.mpr (fun hc => hrr hc.symm)
  have hXfresh : ∀ e ∈ (a.graph.addEdgesFrom b.graph.edgeList).edges,
      e.src ≠ Node.mkAnd ra rb := by
    rw [addEdgesFrom_append a.graph b.graph.edgeList hdisjAB hpwB]
    intro e he
    rcases List.mem_append.mp he with hg | hl
    · exact hfreshA e hg
    · exact hfreshBL e hl
  have hYfresh : ∀ e ∈ (b.graph.addEdgesFrom a.graph.edgeList).edges,
      e.src ≠ Node.mkAnd ra rb := by
    rw [addEdgesFrom_append b.graph a.graph.edgeList hdisjBA hpwA]
    intro e he
    rcases List.mem_append.mp he with hg | hl
    · exact hfreshB e hg
    · exact hfreshAL e hl
  have hXedges := addEdgeAuto_edges_two (a.graph.addEdgesFrom
    b.graph.edgeList) (Node.mkAnd ra rb) ra rb { ts := tsA } { ts := tsB }
    hXfresh
  have hYedges := addEdgeAuto_edges_two (b.graph.addEdgesFrom
    a.graph.edgeList) (Node.mkAnd ra rb) rb ra { ts := tsB } { ts := tsA }
    hYfresh
  refine ⟨{ graph :=
              ((a.graph.addEdgesFrom b.graph.edgeList).addEdgeAuto
                (Node.mkAnd ra rb) ra { ts := tsA }).addEdgeAuto
                (Node.mkAnd ra rb) rb { ts := tsB }
            root := some (Node.mkAnd ra rb)
            now := a.now
            cps := []
            textual := a.textual },
          { graph :=
              ((b.graph.addEdgesFrom a.graph.edgeList).addEdgeAuto
                (Node.mkAnd ra rb) rb { ts := tsB }).addEdgeAuto
                (Node.mkAnd ra rb) ra { ts := tsA }
            root := some (Node.mkAnd ra rb)
            now := b.now
            cps := []
            textual := b.textual }, ?_, ?_, rfl, rfl, ?_, ?_⟩
  · unfold TPG.logicalAnd TPG.addEdgeT TPG.addEdgeGraphStep TPG.applyAllCPs
    simp only [Bind.bind, Except.bind, Except.map, pure, Except.pure,
      hb0b, ha0b, Bool.false_eq_true, if_false, Bool.not_false, if_true,
      ite_true, ite_false, h1, h2, hga, hgb, hcpsA, Bool.false_and,
      beq_self_eq_true, hrbb, List.foldlM_nil]
  · unfold TPG.logicalAnd TPG.addEdgeT TPG.addEdgeGraphStep TPG.applyAllCPs
    simp only [Bind.bind, Except.bind, Except.map, pure, Except.pure,
      hb0b, ha0b, Bool.false_eq_true, if_false, Bool.not_false, if_true,
      ite_true, ite_false, h1, h2, hga, hgb, hcpsB, Bool.false_and,
      beq_self_eq_true, mkAnd_comm rb ra, hrab, List.foldlM_nil]
  · rw [hXedges, addEdgesFrom_append a.graph b.graph.edgeList hdisjAB hpwB,
      hrrb]
    simp only [Bool.false_eq_true, if_false]
  · rw [hYedges, addEdgesFrom_append b.graph a.graph.edgeList hdisjBA hpwA,
      hrrb2]
    simp only [Bool.false_eq_true, if_false]

theorem claim_C5_witness :
    ∃ X Y, TPG.logicalAnd aC5 qC5 = Except.ok X ∧
      TPG.logicalAnd qC5 aC5 = Except.ok Y ∧
      X.root = some (Node.mkAnd nodeP5 nodeQ5) ∧
      Y.root = some (Node.mkAnd nodeP5 nodeQ5) ∧
      X.graph.edges = aC5.graph.edges ++ qC5.graph.edgeList ++
        [{ src := Node.mkAnd nodeP5 nodeQ5, dst := nodeP5, key := 0,
           data := { ts := some (.abs 5) } },
         { src := Node.mkAnd nodeP5 nodeQ5, dst := nodeQ5, key := 0,
           data := { ts := some (.abs 3) } }] ∧
      Y.graph.edges = qC5.graph.edges ++ aC5.graph.edgeList ++
        [{ src := Node.mkAnd nodeP5 nodeQ5, dst := nodeQ5, key := 0,
           data := { ts := some (.abs 3) } },
         { src := Node.mkAnd nodeP5 nodeQ5, dst := nodeP5, key := 0,
           data := { ts := some (.abs 5) } }] :=
  claim_C5.2.1 aC5 qC5 (some (.abs 5)) (some (.abs 3)) nodeP5 nodeQ5
    (by decide) (by decide) (by decide) (by decide) (by decide) (by decide)
    (by decide) (by decide) (by decide) (by decide) (by decide) (by decide)
    (by decide) (by decide) (by decide) (by decide) (by decide) (by decide)
    (by decide)

/-- C5 counterexample: with operands sharing the predicate `p(x)` —
`p(x)@5` and `p(x)@1` — both orders of the conjunction succeed, but
`a.and(b)` does not contain `b.and(a)` while the converse containment
holds: the merge overwrites the shared leaf edge's timestamp with the
second operand's, so the two orders yield observably different graphs.
With an untimestamped operand the mutual-containment check is not even
defined — it raises a `KeyError`. -/
theorem cex_C5 :
    aC5.graph.numberOfNodes ≠ 0 ∧
    bC5.graph.numberOfNodes ≠ 0 ∧
    exC5contains = Except.ok (false, true) ∧
    exC5err = Except.error "KeyError: timestamp" := by
  refine ⟨by decide, by decide, by decide, by decide⟩

/-! ## The modus-ponens conclusion stamps (C1) -/

theorem freshKey_addNode (g : MG) (n m u v : Node) :
    MG.freshKey ((g.addNode n).addNode m) u v = MG.freshKey g u v := by
  unfold MG.freshKey MG.keysBetween
  rw [addNode_edges, addNode_edges]

/-- `add_edge` without a key always appends a fresh parallel edge carrying
exactly the given data. -/
theorem addEdgeAuto_edges (g : MG) (u v : Node) (d : EdgeData) :
    (MG.addEdgeAuto g u v d).edges = g.edges ++
      [{ src := u, dst := v, key := MG.freshKey g u v, data := d }] := by
  show ((g.addNode u).addNode v).edges ++
      [{ src := u, dst := v,
         key := MG.freshKey ((g.addNode u).addNode v) u v, data := d }] = _
  rw [addNode_edges, addNode_edges, freshKey_addNode]

/-- `_add_edge` with `update_if_exists=True` on a `(u, v)` pair not in the
graph appends a new edge stamped with exactly the given data. -/
theorem addEdgeT_fresh_pair (g : TPG) (u v : Node) (d : EdgeData) (g' : TPG)
    (hpair : g.graph.hasEdgePair u v = false)
    (h : TPG.addEdgeT g u v d true = Except.ok g') :
    g'.graph.edges = g.graph.edges ++
      [{ src := u, dst := v, key := g.graph.freshKey u v, data := d }] := by
  have hstep : TPG.addEdgeGraphStep g u v d true =
      Except.ok (MG.addEdgeAuto g.graph u v d) := by
    unfold TPG.addEdgeGraphStep
    rw [Bool.true_and, hpair]
    rfl
  unfold TPG.addEdgeT at h
  rw [hstep] at h
  simp only [Except.map, Except.ok.injEq] at h
  rw [← h]
  exact addEdgeAuto_edges g.graph u v d

/-- `_add_edge` with `update_if_exists=True` on an existing `(u, v)` pair
merges onto the pair's first key with `keep_newer` semantics: the stored
timestamp is the newer of the existing one and the supplied one — an
existing newer stamp survives. -/
theorem addEdgeT_merge_keepNewer (g : TPG) (u v : Node) (d : EdgeData)
    (g' : TPG) (k : Nat) (old : EdgeData) (t1 t2 : Timestamp)
    (hpair : g.graph.hasEdgePair u v = true)
    (hhead : (g.graph.keysBetween u v).head? = some k)
    (hold : g.graph.edgeData u v k = some old)
    (ht1 : old.ts = some t1) (ht2 : d.ts = some t2)
    (h : TPG.addEdgeT g u v d true = Except.ok g') :
    ∃ dm, g'.graph.edgeData u v k = some dm ∧
      dm.ts = some (if Timestamp.tlt g.now t2 t1 then t1 else t2) := by
  by_cases hlt : Timestamp.tlt g.now t2 t1 = true
  · have hmerge : mergeTimestampedData g.now old d true =
        Except.ok (EdgeData.update d old) := by
      unfold mergeTimestampedData
      rw [ht1, ht2]
      show (if Timestamp.tlt g.now t2 t1 = true
        then (pure (EdgeData.update d old) : Res EdgeData)
        else pure (EdgeData.update old d)) = _
      rw [if_pos hlt]
      rfl
    have hstep : TPG.addEdgeGraphStep g u v d true =
        Except.ok (MG.addEdgeKeyed g.graph u v k (EdgeData.update d old)) := by
      unfold TPG.addEdgeGraphStep
      rw [Bool.true_and, hpair, if_pos rfl, hhead]
      show (match g.graph.edgeData u v k with
        | none => (Except.error "KeyError: edge" : Res MG)
        | some old =>
          (mergeTimestampedData g.now old d true).map
            (fun newData => g.graph.addEdgeKeyed u v k newData)) = _
      rw [hold]
      show (mergeTimestampedData g.now old d true).map
        (fun newData => g.graph.addEdgeKeyed u v k newData) = _
      rw [hmerge]
      rfl
    unfold TPG.addEdgeT at h
    rw [hstep] at h
    simp only [Except.map, Except.ok.injEq] at h
    rw [if_pos hlt, ← h]
    exact edgeData_ts_addEdgeKeyed_self g.graph u v k (EdgeData.update d old)
      old hold t1 (by simp [EdgeData.update, ht1, Option.orElse])
  · have hmerge : mergeTimestampedData g.now old d true =
        Except.ok (EdgeData.update old d) := by
      unfold mergeTimestampedData
      rw [ht1, ht2]
      show (if Timestamp.tlt g.now t2 t1 = true
        then (pure (EdgeData.update d old) : Res EdgeData)
        else pure (EdgeData.update old d)) = _
      rw [if_neg hlt]
      rfl
    have hstep : TPG.addEdgeGraphStep g u v d true =
        Except.ok (MG.addEdgeKeyed g.graph u v k (EdgeData.update old d)) := by
      unfold TPG.addEdgeGraphStep
      rw [Bool.true_and, hpair, if_pos rfl, hhead]
      show (match g.graph.edgeData u v k with
        | none => (Except.error "KeyError: edge" : Res MG)
        | some old =>
          (mergeTimestampedData g.now old d true).map
            (fun newData => g.graph.addEdgeKeyed u v k newData)) = _
      rw [hold]
      show (mergeTimestampedData g.now old d true).map
        (fun newData => g.graph.addEdgeKeyed u v k newData) = _
      rw [hmerge]
      rfl
    unfold TPG.addEdgeT at h
    rw [hstep] at h
    simp only [Except.map, Except.ok.injEq] at h
    rw [if_neg hlt, ← h]
    exact edgeData_ts_addEdgeKeyed_self g.graph u v k (EdgeData.update old d)
      old hold t2 (by simp [EdgeData.update, ht2, Option.orElse])

/-- The merge scenario: execution `AND(a(x)@10, b(y)@20)` under a time
source at 10, so the conclusion edge `b(y)→y` already exists with a newer
stamp. -/
def exC1mexec : Res TPG :=
  (predG "a" "x" (.abs 10) 10).logicalAnd (predG "b" "y" (.abs 20) 10)

def exC1mimpl : Res TPG :=
  (predG "a" "x" (.rel 0) 10).logicalImplication (predG "b" "y" (.rel 3) 10)

def exC1mapps : Res (List TPG.MPApp) := do
  let e ← exC1mexec
  let i ← exC1mimpl
  e.findAllPossibleModusPonens i

/-- The assumption-moment of the single application of the merge
scenario. -/
def exC1mmoment : Res Timestamp := do
  let e ← exC1mexec
  let apps ← exC1mapps
  match apps with
  | [m] => maxTs e.now m.matchingTimestamps
  | _ => .error "unexpected number of applications"

/-- The conclusion subgraph's edges of the merge scenario's property. -/
def exC1mconcl : Res (List (Node × Node × Nat × Option Timestamp)) := do
  let i ← exC1mimpl
  let (_, c) ← i.getTopLevelImplicationSubgraphs
  match c with
  | some cg => Except.ok (cg.graph.edges.map (fun e =>
      (e.src, e.dst, e.key, e.data.ts)))
  | none => .error "AttributeError: NoneType"

def exC1mrun : Res TPG := do
  let e ← exC1mexec
  let apps ← exC1mapps
  match apps with
  | [m] => e.applyModusPonens m
  | _ => .error "unexpected number of applications"

/-- The final stamps of all `b(y) → y` edges after the merge-scenario
application. -/
def exC1mBstamps : Res (List (Option Timestamp)) := do
  let r ← exC1mrun
  Except.ok ((r.graph.edges.filter
    (fun e => e.src == nodeB && e.dst == nodeY)).map (fun e => e.data.ts))

/-- C1 counterexample: on execution `AND(a(x)@10, b(y)@20)` with property
`a ⇒ b` whose B-edge is `Relative(+3)`, the single application has
assumption-moment `Absolute(10)` and the rebound value is `Absolute(13)`,
yet after `apply_modus_ponens` the only `b(y)→y` edge is stamped
`Absolute(20)`: the `update_if_exists` merge kept the existing newer
stamp, so this relatively-stamped conclusion edge does not end up at
`Absolute(t★ + δ)`. -/
theorem cex_C1 :
    exC1mmoment = Except.ok (.abs 10) ∧
    exC1mconcl = Except.ok [(nodeB, nodeY, 0, some (.rel 3))] ∧
    TPG.rebindTs 10 (.abs 10) (.rel 3) = .abs 13 ∧
    exC1mBstamps = Except.ok [some (.abs 20)] := by
  refine ⟨by decide, by decide, by decide, by decide⟩

/-- C1: `apply_modus_ponens` computes the assumption-moment `t★` as the
maximum of the application's matching-path timestamps (conjunct 1), and
the conclusion-copy step computes `Absolute(t★ + δ)` for each
`Relative(δ)` conclusion edge (conjunct 2) and passes exactly these
rebound values to `_add_edge`, collecting them as
`new_conclusion_timestamps` (conjunct 3).  The rebound stamp is what gets
stored when the `(src, dst)` pair is new to the graph (conjunct 4); on an
existing pair the `keep_newer` merge stores the newer of the existing and
the rebound stamp, so an existing newer stamp survives (conjunct 5).  In
the scenario where the conclusion is new — `a(w)@10` with `a ⇒ b`,
B-edge `Relative(+3)` — the moment is `Absolute(10)` and the new B-edge
ends up stamped `Absolute(13)` (conjuncts 6 and 7). -/
theorem claim_C1 :
    (∀ (now : Int) (l : List Timestamp) (t : Timestamp),
        maxTs now l = .ok t →
        t ∈ l ∧ ∀ s ∈ l, Timestamp.resolve now s ≤ Timestamp.resolve now t) ∧
    (∀ (now : Int) (tstar : Timestamp) (d : Int),
        TPG.rebindTs now tstar (.rel d) = .abs (tstar.absoluteValue now + d)) ∧
    (∀ (tstar : Timestamp) (es : List Edge) (g g' : TPG)
        (tss : List Timestamp),
        TPG.addConclusionEdges g tstar es = .ok (g', tss) →
        ∃ raw, tsListOf es = some raw ∧
          tss = raw.map (TPG.rebindTs g.now tstar) ∧ g'.now = g.now) ∧
    (∀ (g : TPG) (u v : Node) (d : EdgeData) (g' : TPG),
        g.graph.hasEdgePair u v = false →
        TPG.addEdgeT g u v d true = Except.ok g' →
        g'.graph.edges = g.graph.edges ++
          [{ src := u, dst := v, key := g.graph.freshKey u v, data := d }]) ∧
    (∀ (g : TPG) (u v : Node) (d : EdgeData) (g' : TPG) (k : Nat)
        (old : EdgeData) (t1 t2 : Timestamp),
        g.graph.hasEdgePair u v = true →
        (g.graph.keysBetween u v).head? = some k →
        g.graph.edgeData u v k = some old →
        old.ts = some t1 → d.ts = some t2 →
        TPG.addEdgeT g u v d true = Except.ok g' →
        ∃ dm, g'.graph.edgeData u v k = some dm ∧
          dm.ts = some (if Timestamp.tlt g.now t2 t1 then t1 else t2)) ∧
    exC1moment = .ok (.abs 10) ∧
    exC1run = .ok (some nodeB,
      [{ src := nodeB, dst := nodeY, key := 0,
         data := { ts := some (.abs 13) } }]) :=
  ⟨maxTs_spec, fun _ _ _ => rfl, addConclusionEdges_spec,
   addEdgeT_fresh_pair, addEdgeT_merge_keepNewer, by decide, by decide⟩

def exC1wBase : TPG := predG "b" "y" (.abs 20) 10

def exC1wMergeRes : Res TPG :=
  TPG.addEdgeT exC1wBase nodeB nodeY { ts := some (.abs 13) } true

def exC1wMerge : TPG := match exC1wMergeRes with | .ok g => g | .error _ => {}

def nodeC1c : Node := Node.mkPredicate "c" ["z"]
def nodeC1z : Node := Node.mkVariable "z"

def exC1wFreshRes : Res TPG :=
  TPG.addEdgeT exC1wBase nodeC1c nodeC1z { ts := some (.abs 13) } true

def exC1wFresh : TPG := match exC1wFreshRes with | .ok g => g | .error _ => {}

theorem claim_C1_witness :
    (Timestamp.abs 10 ∈ [Timestamp.abs 3, Timestamp.abs 10] ∧
     ∀ s ∈ [Timestamp.abs 3, Timestamp.abs 10],
       Timestamp.resolve 0 s ≤ Timestamp.resolve 0 (Timestamp.abs 10)) ∧
    exC1wFresh.graph.edges = exC1wBase.graph.edges ++
      [{ src := nodeC1c, dst := nodeC1z,
         key := exC1wBase.graph.freshKey nodeC1c nodeC1z,
         data := { ts := some (.abs 13) } }] ∧
    (∃ dm, exC1wMerge.graph.edgeData nodeB nodeY 0 = some dm ∧
       dm.ts = some (if Timestamp.tlt exC1wBase.now (.abs 13) (.abs 20)
         then (.abs 20) else (.abs 13))) :=
  ⟨claim_C1.1 0 [Timestamp.abs 3, Timestamp.abs 10] (Timestamp.abs 10)
     (by decide),
   claim_C1.2.2.2.1 exC1wBase nodeC1c nodeC1z { ts := some (.abs 13) }
     exC1wFresh (by decide) (by decide),
   claim_C1.2.2.2.2.1 exC1wBase nodeB nodeY { ts := some (.abs 13) }
     exC1wMerge 0 { ts := some (.abs 20) } (.abs 20) (.abs 13)
     (by decide) (by decide) (by decide) (by decide) (by decide) (by decide)⟩

end Lovpy
